import Mathlib

/-!
Verification development for the flashpoint-studio trace decoding and
transfer-detection pipeline.

The definitions below are a shallow embedding of the TypeScript sources:

- `src/lib/etherscan-utils.ts` (class `FunctionDecoder`): selector registry
  and calldata/output/error codec, with its two mutable caches.
- `src/lib/trace-parser.ts` (class `TraceParser`): `parseCallFrame` and
  `calculateStats`.
- the `TransferDetector` service: `formatTokenAmount`, `traverseFrame`,
  `parseTransferCall`, `parseTransferFromCall`, `deduplicateTransfers`.

Modelling conventions:
- JavaScript strings are Lean `String`; optional / possibly-undefined values
  are `Option`; JavaScript truthiness of a string is "defined and non-empty".
- `bigint` values parsed from 0x-hex fields are non-negative and are modelled
  as `Nat`; the hex-to-bigint conversion performed by `BigInt(...)` on the
  tracer output is a bijection and is not re-modelled.
- `number` results produced from bigints via `Number(...)` and `10 ** d` are
  IEEE-754 doubles; an integer converted to a double is rounded to 53
  significant bits (round half to even), which `roundTo53` computes exactly.
- the deterministic ethers.js primitives (fragment lookup by selector,
  ABI argument encoding and decoding) are abstracted as the fixed functions
  of an `EthersModel`; interfaces are the lists of their function and error
  fragments, and the special-cased builtin error fragments of ethers
  (Error(string), Panic(uint256)) are the interface-independent
  `builtinError` function.
- JavaScript `Map` objects are insertion-ordered association lists with
  `alookup` and `aset` (`Map.get` / `Map.set`).
-/

namespace Flashpoint

/-! ## JavaScript string and truthiness helpers -/

/-- Lower-case an ASCII letter, as `String.prototype.toLowerCase` does on the
hex/address strings this pipeline handles (all ASCII). -/
def charLower (c : Char) : Char :=
  if 65 ≤ c.toNat ∧ c.toNat ≤ 90 then Char.ofNat (c.toNat + 32) else c

/-- `s.toLowerCase()` on ASCII data. -/
def strLower (s : String) : String := String.mk (s.data.map charLower)

/-- `s.slice(0, n)`. -/
def strTake (s : String) (n : Nat) : String := String.mk (s.data.take n)

/-- Boolean prefix test on character lists (first argument is the prefix). -/
def listStarts : List Char → List Char → Bool
  | [], _ => true
  | _ :: _, [] => false
  | a :: as, b :: bs => a == b && listStarts as bs

/-- `s.startsWith(pre)`. -/
def strStarts (s pre : String) : Bool := listStarts pre.data s.data

/-- JavaScript truthiness of a `string | undefined` value. -/
def truthyS : Option String → Bool
  | some s => !(s == "")
  | none => false

/-- JavaScript `a || b` on `string | undefined` values. -/
def jsOr (a b : Option String) : Option String := if truthyS a then a else b

/-- JavaScript `a || b` on definitely-present strings. -/
def jsOrStr (a b : String) : String := if a == "" then b else a

/-- The zero-address sentinel used when a raw frame has no `to` field. -/
def zeroAddress : String := "0x0000000000000000000000000000000000000000"

/-- JavaScript `a || b` where `a : string | undefined` and the result is used
as a definite string (`frame.to || ZERO_ADDRESS`). -/
def tsOrElse (a : Option String) (b : String) : String :=
  match a with
  | some s => if s == "" then b else s
  | none => b

/-- `s.padStart(n, '0')`. -/
def padStartZeros (s : String) (n : Nat) : String :=
  String.mk (List.replicate (n - s.data.length) '0' ++ s.data)

/-- `s.replace(/0+$/, '')`: drop trailing zero characters. -/
def dropTrailZeros (s : String) : String :=
  String.mk ((s.data.reverse.dropWhile (fun c => c == '0')).reverse)

/-! ## IEEE-754 double rounding of integers -/

/-- Fuelled binary logarithm (structural recursion on the fuel, so that the
kernel can evaluate it on literals). -/
def log2Fuel : Nat → Nat → Nat
  | 0, _ => 0
  | fuel + 1, n => if n ≤ 1 then 0 else log2Fuel fuel (n / 2) + 1

/-- Floor of the base-2 logarithm; the fuel 1100 covers every value below
`2 ^ 1100`, far beyond the finite double range this rounding is used for. -/
def bitLog2 (n : Nat) : Nat := log2Fuel 1100 n

/-- Round a natural number to 53 significant bits, half to even: the value of
the nearest IEEE-754 double to `n` (exact for every `n < 2 ^ 1024`). -/
def roundTo53 (n : Nat) : Nat :=
  if n < 2 ^ 53 then n
  else
    let k := bitLog2 n - 52
    let q := n / 2 ^ k
    let r := n % 2 ^ k
    let h := 2 ^ (k - 1)
    let q2 := if h < r ∨ (r = h ∧ q % 2 = 1) then q + 1 else q
    q2 * 2 ^ k

/-- The JavaScript value `BigInt(10 ** d)` for `d ≤ 308`: ten to the `d`
computed in double precision, hence rounded to 53 significant bits. -/
def jsPow10 (d : Nat) : Nat := roundTo53 (10 ^ d)

/-! ## Codec data model (`FunctionDecoder` of src/lib/etherscan-utils.ts) -/

/-- An opaque decoded ABI value (`unknown` in the source): the transfer
detector only ever reads such values back as an address string or a bigint
amount, so two constructors suffice. -/
inductive JsVal where
  | vStr (s : String)
  | vInt (n : Nat)
deriving DecidableEq

/-- A named ABI parameter with its type descriptor (`ethers.ParamType`). -/
structure Param where
  name : String
  ty : String
deriving DecidableEq

/-- A function or custom-error fragment of an ethers `Interface`:
`signature` is `fragment.format('full')`. -/
structure Frag where
  name : String
  selector : String
  signature : String
  inputs : List Param
  outputs : List Param
deriving DecidableEq

/-- A successfully constructed `ethers.Interface`: its function fragments and
its custom-error fragments, in declaration order. -/
structure Iface where
  funcs : List Frag
  errs : List Frag
deriving DecidableEq

/-- `DecodedFunction` of the source. -/
structure DecodedFunction where
  signature : String
  name : String
  selector : String
deriving DecidableEq

/-- `DecodedError` of the source. -/
structure DecodedError where
  signature : String
  name : String
  selector : String
  args : Option (List JsVal)
deriving DecidableEq

/-- The deterministic ethers.js primitives the decoder calls into.
`builtinError` is the interface-independent special-casing of
`Error(string)` and `Panic(uint256)` inside `Interface.getError`; the three
decode functions return `none` exactly when the corresponding ethers call
throws (malformed payload for the fragment). -/
structure EthersModel where
  builtinError : String → Option Frag
  decodeErrorArgs : Frag → String → Option (List JsVal)
  decodeFnData : Frag → String → Option (List JsVal)
  decodeFnResult : Frag → String → Option (List JsVal)

/-- The mutable state of a `FunctionDecoder` instance: the selector cache,
the error cache and the list of loaded interfaces. -/
structure DecState where
  selC : List (String × DecodedFunction)
  errC : List (String × DecodedError)
  ifaces : List Iface
deriving DecidableEq

/-- `Map.get`. -/
def alookup {α : Type} (k : String) : List (String × α) → Option α
  | [] => none
  | (k0, v0) :: m => if k0 = k then some v0 else alookup k m

/-- `Map.set`: replace in place when the key is present, append otherwise. -/
def aset {α : Type} (k : String) (v : α) : List (String × α) → List (String × α)
  | [] => [(k, v)]
  | (k0, v0) :: m => if k0 = k then (k, v) :: m else (k0, v0) :: aset k v m

/-- `iface.getFunction(selector)`: first function fragment whose lowercased
selector matches the lookup key (ethers also lowercases the key; calldata
selectors are lowercase hex in practice, and the cache paths pass
pre-normalized keys). -/
def getFn (i : Iface) (k : String) : Option Frag :=
  i.funcs.find? (fun f => strLower f.selector == k)

/-- The custom-error fragments of one interface matching a selector key. -/
def findErrDef (i : Iface) (k : String) : Option Frag :=
  i.errs.find? (fun f => strLower f.selector == k)

/-- `iface.getError(selector)`: the ethers builtins are checked before the
ABI-declared custom errors. -/
def getErr (em : EthersModel) (i : Iface) (k : String) : Option Frag :=
  match em.builtinError k with
  | some f => some f
  | none => findErrDef i k

/-- The `for (const iface of this.interfaces)` search of `decode`. -/
def firstFn : List Iface → String → Option Frag
  | [], _ => none
  | i :: is, k =>
    match getFn i k with
    | some f => some f
    | none => firstFn is k

/-- The miss-path interface loop of `decodeError`: the first interface whose
`getError` yields a fragment wins, whether or not argument decoding then
succeeds (a decode failure is caught inside that iteration). -/
def errFirstFrag (em : EthersModel) : List Iface → String → Option Frag
  | [], _ => none
  | i :: is, k =>
    match getErr em i k with
    | some f => some f
    | none => errFirstFrag em is k

/-- The hit-path interface loop of `decodeError`: the first interface whose
fragment both resolves and decodes the payload wins; a decode failure falls
through to the next interface. -/
def errFirstSuccess (em : EthersModel) :
    List Iface → String → String → Option (Frag × List JsVal)
  | [], _, _ => none
  | i :: is, k, ed =>
    match getErr em i k with
    | some g =>
      match em.decodeErrorArgs g ed with
      | some args => some (g, args)
      | none => errFirstSuccess em is k ed
    | none => errFirstSuccess em is k ed

/-- The parameter-decoding loop of `decodeCalldata`: first interface whose
fragment resolves and whose `decodeFunctionData` succeeds. -/
def fnParams (em : EthersModel) : List Iface → String → String → Option (List JsVal × Frag)
  | [], _, _ => none
  | i :: is, k, cd =>
    match getFn i k with
    | some g =>
      match em.decodeFnData g cd with
      | some vals => some (vals, g)
      | none => fnParams em is k cd
    | none => fnParams em is k cd

/-- The return-data-decoding loop of `decodeOutput`. -/
def fnOutput (em : EthersModel) : List Iface → String → String → Option (List JsVal × Frag)
  | [], _, _ => none
  | i :: is, k, od =>
    match getFn i k with
    | some g =>
      match em.decodeFnResult g od with
      | some vals => some (vals, g)
      | none => fnOutput em is k od
    | none => fnOutput em is k od

/-- `input.name || 'param' + input.name` of `decodeCalldata`. -/
def paramName (p : Param) : String := jsOrStr p.name ("param" ++ p.name)

/-- `output.name || 'output' + index` of `decodeOutput`. -/
def outputNameList : Nat → List Param → List String
  | _, [] => []
  | i, p :: ps => (if p.name == "" then "output" ++ Nat.repr i else p.name) :: outputNameList (i + 1) ps

/-- The cache entry built by `forEachFunction` during `addAbis`. -/
def mkDF (f : Frag) : DecodedFunction := ⟨f.signature, f.name, f.selector⟩

/-- The cache entry built by `forEachError` during `addAbis` (no args). -/
def mkDE (f : Frag) : DecodedError := ⟨f.signature, f.name, f.selector, none⟩

/-- One iteration of the `addAbis` loop for a successfully parsed ABI:
push the interface and pre-populate both caches with all of its fragments. -/
def addIface (S : DecState) (i : Iface) : DecState :=
  { selC := i.funcs.foldl (fun m f => aset (strLower f.selector) (mkDF f) m) S.selC
    errC := i.errs.foldl (fun m f => aset (strLower f.selector) (mkDE f) m) S.errC
    ifaces := S.ifaces ++ [i] }

/-- `addAbis`: each ABI document either parsed into an interface (`some`) or
threw in the `ethers.Interface` constructor and is skipped (`none`). -/
def addAbis (S : DecState) (abis : List (Option Iface)) : DecState :=
  abis.foldl (fun s a => match a with | some i => addIface s i | none => s) S

/-- A fresh `FunctionDecoder` constructed over a list of ABI documents. -/
def mkDecoder (abis : List (Option Iface)) : DecState := addAbis ⟨[], [], []⟩ abis

/-- Selector normalization at the top of `decode`: lowercase and ensure the
`0x` prefix. -/
def normalizeSelector (sel : String) : String :=
  let ls := strLower sel
  if strStarts ls "0x" then ls else "0x" ++ ls

/-- `FunctionDecoder.decode`: cache lookup, then interface search (caching a
hit), then the Unknown sentinel carrying the normalized selector. -/
def decode (S : DecState) (sel : String) : DecodedFunction × DecState :=
  let ns := normalizeSelector sel
  match alookup ns S.selC with
  | some v => (v, S)
  | none =>
    match firstFn S.ifaces ns with
    | some f =>
      let d : DecodedFunction := ⟨f.signature, f.name, ns⟩
      (d, { S with selC := aset ns d S.selC })
    | none => (⟨ns, "Unknown", ns⟩, S)

/-- The result record of `decodeCalldata`. -/
structure CalldataDecoded where
  function : DecodedFunction
  params : Option (List JsVal)
  paramNames : Option (List String)
  paramTypes : Option (List Param)
deriving DecidableEq

/-- `FunctionDecoder.decodeCalldata`. -/
def decodeCalldata (em : EthersModel) (S : DecState) (cd : String) :
    CalldataDecoded × DecState :=
  if cd == "" || cd == "0x" || cd.length < 10 then
    (⟨⟨"fallback()", "fallback", "0x"⟩, none, none, none⟩, S)
  else
    let sel := strTake cd 10
    let dfS := decode S sel
    match fnParams em dfS.2.ifaces sel cd with
    | some (vals, g) =>
      (⟨dfS.1, some vals, some (g.inputs.map paramName), some g.inputs⟩, dfS.2)
    | none => (⟨dfS.1, none, none, none⟩, dfS.2)

/-- `FunctionDecoder.decodeError`. -/
def decodeError (em : EthersModel) (S : DecState) (ed : String) :
    DecodedError × DecState :=
  if ed == "" || ed == "0x" || ed.length < 10 then
    (⟨"Unknown error", "Unknown", "0x", none⟩, S)
  else
    let sel := strLower (strTake ed 10)
    match alookup sel S.errC with
    | some cached =>
      (match errFirstSuccess em S.ifaces sel ed with
       | some (g, args) => ⟨g.signature, g.name, g.selector, some args⟩
       | none => cached, S)
    | none =>
      match errFirstFrag em S.ifaces sel with
      | some g =>
        match em.decodeErrorArgs g ed with
        | some args =>
          let d : DecodedError := ⟨g.signature, g.name, g.selector, some args⟩
          (d, { S with errC := aset sel d S.errC })
        | none =>
          let d : DecodedError := ⟨g.signature, g.name, g.selector, none⟩
          (d, { S with errC := aset sel d S.errC })
      | none => (⟨sel, "Unknown", sel, none⟩, S)

/-- The result record of `decodeOutput`. -/
structure OutputDecoded where
  values : List JsVal
  names : List String
  types : List Param
deriving DecidableEq

/-- `FunctionDecoder.decodeOutput` (reads the caches nowhere and mutates
nothing). -/
def decodeOutput (em : EthersModel) (S : DecState) (cd od : String) :
    Option OutputDecoded :=
  if cd == "" || cd.length < 10 || od == "" || od == "0x" then none
  else
    let sel := strTake cd 10
    match fnOutput em S.ifaces sel od with
    | some (vals, g) => some ⟨vals, outputNameList 0 g.outputs, g.outputs⟩
    | none => none

/-! ## Call frames (src/lib/types.ts and src/lib/trace-parser.ts) -/

/-- The non-recursive fields of a raw `CallFrame` from the tracer.
`value`, `gas`, `gasUsed` carry the already-converted bigint values of their
0x-hex source strings. -/
structure CallInfo where
  type : String
  fromAddr : String
  toAddr : Option String
  value : Option Nat
  gas : Nat
  gasUsed : Nat
  input : String
  output : Option String
  error : Option String
  revertReason : Option String
deriving DecidableEq

mutual
/-- A raw call frame: fields plus nested calls (`frame.calls || []`). -/
inductive CallFrame where
  | mk : CallInfo → CallFrames → CallFrame
/-- A list of raw call frames (spelled out so all recursion is structural). -/
inductive CallFrames where
  | nil : CallFrames
  | cons : CallFrame → CallFrames → CallFrames
end

def CallFrame.info : CallFrame → CallInfo
  | .mk b _ => b

def CallFrame.calls : CallFrame → CallFrames
  | .mk _ c => c

def CallFrames.toList : CallFrames → List CallFrame
  | .nil => []
  | .cons f fs => f :: fs.toList

/-- The `decodedError` record stored on a parsed frame. -/
structure ErrInfo where
  name : String
  signature : String
  args : Option (List JsVal)
deriving DecidableEq

/-- The non-recursive fields of a `ParsedCallFrame`. -/
structure ParsedInfo where
  type : String
  fromAddr : String
  toAddr : String
  value : Nat
  gas : Nat
  gasUsed : Nat
  gasPercentage : ℚ
  functionSignature : String
  functionName : String
  input : String
  decodedInput : Option (List JsVal)
  inputParamNames : Option (List String)
  inputParamTypes : Option (List Param)
  output : Option String
  decodedOutput : Option (List JsVal)
  outputParamNames : Option (List String)
  outputParamTypes : Option (List Param)
  error : Option String
  revertReason : Option String
  decodedError : Option ErrInfo
  depth : Nat
deriving DecidableEq

mutual
/-- A parsed call frame: decoded fields plus recursively parsed children. -/
inductive ParsedCallFrame where
  | mk : ParsedInfo → ParsedCallFrames → ParsedCallFrame
/-- A list of parsed call frames. -/
inductive ParsedCallFrames where
  | nil : ParsedCallFrames
  | cons : ParsedCallFrame → ParsedCallFrames → ParsedCallFrames
end

def ParsedCallFrame.info : ParsedCallFrame → ParsedInfo
  | .mk b _ => b

def ParsedCallFrame.calls : ParsedCallFrame → ParsedCallFrames
  | .mk _ c => c

def ParsedCallFrames.toList : ParsedCallFrames → List ParsedCallFrame
  | .nil => []
  | .cons f fs => f :: fs.toList

/-- `gasPercentage = gas > 0 ? Number((gasUsed * 10000n) / gas) / 100 : 0`.
The bigint quotient is truncating; `Number(...)` rounds it to 53 bits. -/
def gasPercentage (gas gasUsed : Nat) : ℚ :=
  if 0 < gas then ((roundTo53 (gasUsed * 10000 / gas) : ℚ)) / 100 else 0

/-- The error/output decoding block of `parseCallFrame` (lines 73-97 of
trace-parser.ts): error decode first, output decode only on the non-error
path, threading the decoder state. -/
def parseFrameOutput (em : EthersModel) (S : DecState) (b : CallInfo) :
    (Option ErrInfo × Option (List JsVal) × Option (List String) × Option (List Param)) × DecState :=
  match b.output with
  | some o =>
    if !(o == "") && !(o == "0x") && decide (10 ≤ o.length) then
      let er := decodeError em S o
      if er.1.name = "Unknown" then
        if !(truthyS b.error) && !(truthyS b.revertReason) then
          match decodeOutput em er.2 b.input o with
          | some od =>
            if 0 < od.values.length then
              ((none, some od.values, some od.names, some od.types), er.2)
            else ((none, none, none, none), er.2)
          | none => ((none, none, none, none), er.2)
        else ((none, none, none, none), er.2)
      else ((some ⟨er.1.name, er.1.signature, er.1.args⟩, none, none, none), er.2)
    else ((none, none, none, none), S)
  | none => ((none, none, none, none), S)

mutual
/-- `TraceParser.parseCallFrame`, with the decoder state threaded through the
calldata decode, the error/output decode and the recursive children. -/
def parseCallFrame (em : EthersModel) : CallFrame → Nat → DecState → ParsedCallFrame × DecState
  | .mk b kids, depth, S =>
    let dec := decodeCalldata em S b.input
    let eo := parseFrameOutput em dec.2 b
    let kidsR := parseCallFrames em kids (depth + 1) eo.2
    (ParsedCallFrame.mk
      { type := b.type
        fromAddr := b.fromAddr
        toAddr := tsOrElse b.toAddr zeroAddress
        value := b.value.getD 0
        gas := b.gas
        gasUsed := b.gasUsed
        gasPercentage := gasPercentage b.gas b.gasUsed
        functionSignature := dec.1.function.signature
        functionName := dec.1.function.name
        input := b.input
        decodedInput := dec.1.params
        inputParamNames := dec.1.paramNames
        inputParamTypes := dec.1.paramTypes
        output := b.output
        decodedOutput := eo.1.2.1
        outputParamNames := eo.1.2.2.1
        outputParamTypes := eo.1.2.2.2
        error := b.error
        revertReason := b.revertReason
        decodedError := eo.1.1
        depth := depth }
      kidsR.1, kidsR.2)
/-- The recursive `frame.calls.map(call => parseCallFrame(call, depth + 1))`,
carrying the decoder state left to right. -/
def parseCallFrames (em : EthersModel) : CallFrames → Nat → DecState → ParsedCallFrames × DecState
  | .nil, _, S => (.nil, S)
  | .cons f fs, depth, S =>
    let p := parseCallFrame em f depth S
    let ps := parseCallFrames em fs depth p.2
    (.cons p.1 ps.1, ps.2)
end

/-! ## Trace statistics (`TraceParser.calculateStats`) -/

/-- `TraceStats` of the source. -/
structure TraceStats where
  totalGasUsed : Nat
  totalCalls : Nat
  maxDepth : Nat
  hasError : Bool
  errorMessage : Option String
deriving DecidableEq

/-- The four mutable locals of `calculateStats`. -/
structure StatAcc where
  totalCalls : Nat
  maxDepth : Nat
  hasError : Bool
  errorMessage : Option String
deriving DecidableEq

/-- The loop body of `processFrame` for one visited child `call`:
`totalCalls++`, `maxDepth = max(maxDepth, call.depth)` and, only when
`call.error` is truthy, `hasError = true` and
`errorMessage = errorMessage || call.error || call.revertReason`. -/
def statsVisit (a : StatAcc) (c : ParsedCallFrame) : StatAcc :=
  { totalCalls := a.totalCalls + 1
    maxDepth := Nat.max a.maxDepth c.info.depth
    hasError := a.hasError || truthyS c.info.error
    errorMessage :=
      if truthyS c.info.error then jsOr a.errorMessage (jsOr c.info.error c.info.revertReason)
      else a.errorMessage }

mutual
/-- `processFrame(f)`: iterate over `f.calls`, visiting then recursing. -/
def statsGo : ParsedCallFrame → StatAcc → StatAcc
  | .mk _ kids, a => statsList kids a
def statsList : ParsedCallFrames → StatAcc → StatAcc
  | .nil, a => a
  | .cons c cs, a => statsList cs (statsGo c (statsVisit a c))
end

/-- `TraceParser.calculateStats`. -/
def calculateStats (f : ParsedCallFrame) : TraceStats :=
  let a0 : StatAcc :=
    { totalCalls := 1
      maxDepth := f.info.depth
      hasError := truthyS f.info.error
      errorMessage := jsOr f.info.error f.info.revertReason }
  let a := statsGo f a0
  { totalGasUsed := f.info.gasUsed
    totalCalls := a.totalCalls
    maxDepth := a.maxDepth + 1
    hasError := a.hasError
    errorMessage := a.errorMessage }

mutual
/-- All frames of a parsed tree in document order (root, then depth-first
children): the traversal order of both `calculateStats` and the transfer
detector. -/
def allFrames : ParsedCallFrame → List ParsedCallFrame
  | .mk b kids => .mk b kids :: allFramesL kids
def allFramesL : ParsedCallFrames → List ParsedCallFrame
  | .nil => []
  | .cons c cs => allFrames c ++ allFramesL cs
end

/-- The proper descendants of a frame in pre-order. -/
def descFrames (f : ParsedCallFrame) : List ParsedCallFrame := allFramesL f.calls

/-! ## Transfer detection (`TransferDetector`) -/

/-- The `type` tag of a token transfer. -/
inductive TType where
  | native
  | erc20
deriving DecidableEq

/-- The string interpolation of a transfer type tag. -/
def ttypeStr : TType → String
  | .native => "native"
  | .erc20 => "erc20"

/-- `TokenTransfer` of the source (`type` is spelled `ttype`, `from` is
spelled `fromAddr`; both are reserved words in Lean). -/
structure TokenTransfer where
  ttype : TType
  fromAddr : String
  toAddr : String
  amount : Nat
  tokenAddress : Option String
  tokenName : Option String
  tokenSymbol : Option String
  tokenDecimals : Option Nat
  formattedAmount : Option String
deriving DecidableEq

/-- `TransferDetector.formatTokenAmount` with its always-default
`maxDecimals = 6`. The divisor is `BigInt(10 ** decimals)`: exponentiation in
double precision, so `jsPow10 decimals`; for `decimals ≥ 309` the double
overflows to Infinity, `BigInt(...)` throws, and the `catch` branch returns
`amount.toString()`. -/
def formatTokenAmount (amount decimals : Nat) : String :=
  if 309 ≤ decimals then Nat.repr amount
  else
    let divisor := jsPow10 decimals
    let integerPart := amount / divisor
    let fractionalPart := amount % divisor
    if fractionalPart = 0 then Nat.repr integerPart
    else
      let fractionalStr := padStartZeros (Nat.repr fractionalPart) decimals
      let trimmed := strTake (dropTrailZeros fractionalStr) 6
      if trimmed == "" then Nat.repr integerPart
      else Nat.repr integerPart ++ "." ++ trimmed

/-- ERC-20 `transfer(address,uint256)` selector. -/
def TRANSFER_SELECTOR : String := "0xa9059cbb"

/-- ERC-20 `transferFrom(address,address,uint256)` selector. -/
def TRANSFER_FROM_SELECTOR : String := "0x23b872dd"

/-- `TransferDetector.isTransferCall`. -/
def isTransferCall (f : ParsedCallFrame) : Bool :=
  strStarts f.info.input TRANSFER_SELECTOR

/-- `TransferDetector.isTransferFromCall`. -/
def isTransferFromCall (f : ParsedCallFrame) : Bool :=
  strStarts f.info.input TRANSFER_FROM_SELECTOR

/-- `TransferDetector.parseTransferCall`: reads `decodedInput[0]` as the
recipient address and `decodedInput[1]` as the bigint amount; a decoded-input
list of unexpected shape is a failed parse (the `catch` branch). -/
def parseTransferCall (f : ParsedCallFrame) : Option TokenTransfer :=
  match f.info.decodedInput with
  | none => none
  | some vs =>
    if vs.length < 2 then none
    else
      match vs with
      | JsVal.vStr toA :: JsVal.vInt amt :: _ =>
        some { ttype := .erc20, fromAddr := f.info.fromAddr, toAddr := toA, amount := amt,
               tokenAddress := some f.info.toAddr, tokenName := none, tokenSymbol := none,
               tokenDecimals := none, formattedAmount := none }
      | _ => none

/-- `TransferDetector.parseTransferFromCall`. -/
def parseTransferFromCall (f : ParsedCallFrame) : Option TokenTransfer :=
  match f.info.decodedInput with
  | none => none
  | some vs =>
    if vs.length < 3 then none
    else
      match vs with
      | JsVal.vStr fr :: JsVal.vStr toA :: JsVal.vInt amt :: _ =>
        some { ttype := .erc20, fromAddr := fr, toAddr := toA, amount := amt,
               tokenAddress := some f.info.toAddr, tokenName := none, tokenSymbol := none,
               tokenDecimals := none, formattedAmount := none }
      | _ => none

/-- `if (isDelegateCall && parentFrame) transfer.from = parentFrame.from`. -/
def overrideDelegFrom (isD : Bool) (parent : Option ParsedCallFrame)
    (tr : TokenTransfer) : TokenTransfer :=
  match parent with
  | some p => if isD then { tr with fromAddr := p.info.fromAddr } else tr
  | none => tr

/-- The transfers pushed by one iteration of `traverseFrame` for one frame
(native detection, then `transfer()`, then `transferFrom()`), before
recursing into the children. -/
def frameTransfers (f : ParsedCallFrame) (parent : Option ParsedCallFrame) :
    List TokenTransfer :=
  let isDelegateCall := f.info.type == "DELEGATECALL"
  let actualFrom :=
    match parent with
    | some p => if isDelegateCall then p.info.fromAddr else f.info.fromAddr
    | none => f.info.fromAddr
  let native :=
    if decide (0 < f.info.value) && !isDelegateCall then
      [{ ttype := .native, fromAddr := actualFrom, toAddr := f.info.toAddr, amount := f.info.value,
         tokenAddress := none, tokenName := none, tokenSymbol := some "ETH",
         tokenDecimals := some 18,
         formattedAmount := some (formatTokenAmount f.info.value 18) }]
    else []
  let t1 :=
    if isTransferCall f then
      match parseTransferCall f with
      | some tr =>
        if truthyS tr.tokenAddress then [overrideDelegFrom isDelegateCall parent tr] else []
      | none => []
    else []
  let t2 :=
    if isTransferFromCall f then
      match parseTransferFromCall f with
      | some tr =>
        if truthyS tr.tokenAddress then [overrideDelegFrom isDelegateCall parent tr] else []
      | none => []
    else []
  native ++ t1 ++ t2

mutual
/-- `TransferDetector.traverseFrame`: own detections, then the children with
the current frame passed as the parent. -/
def traverseFrame : ParsedCallFrame → Option ParsedCallFrame → List TokenTransfer
  | .mk b kids, parent =>
    frameTransfers (.mk b kids) parent ++ traverseFramesL kids (.mk b kids)
def traverseFramesL : ParsedCallFrames → ParsedCallFrame → List TokenTransfer
  | .nil, _ => []
  | .cons c cs, par => traverseFrame c (some par) ++ traverseFramesL cs par
end

/-- The deduplication key: `from`, `to`, amount and type, addresses
lowercased, `tokenAddress` intentionally excluded. -/
def transferKey (t : TokenTransfer) : String :=
  strLower t.fromAddr ++ "-" ++ strLower t.toAddr ++ "-" ++ Nat.repr t.amount ++ "-" ++ ttypeStr t.ttype

/-- `transfer.tokenSymbol && transfer.tokenSymbol !== 'UNKNOWN'` as a
boolean: the symbol is truthy (present and non-empty) and not the UNKNOWN
sentinel. -/
def hasMetadataB (t : TokenTransfer) : Bool :=
  match t.tokenSymbol with
  | some s => !(s == "") && !(s == "UNKNOWN")
  | none => false

/-- One iteration of the `deduplicateTransfers` loop over the `seen` map. -/
def dedupStep (seen : List (String × TokenTransfer)) (t : TokenTransfer) :
    List (String × TokenTransfer) :=
  let key := transferKey t
  match alookup key seen with
  | some existing =>
    if hasMetadataB t && !hasMetadataB existing then aset key t seen else seen
  | none => aset key t seen

/-- `TransferDetector.deduplicateTransfers`: fold the transfers through the
`seen` map and return `Array.from(seen.values())`. -/
def deduplicateTransfers (ts : List TokenTransfer) : List TokenTransfer :=
  (ts.foldl dedupStep []).map Prod.snd

/-! ## Concrete instances used to exercise the theorems -/

/-- An ethers model with no builtin error fragments and no decodable
payloads: the degenerate deterministic backend. -/
def emTrivial : EthersModel :=
  ⟨fun _ => none, fun _ _ => none, fun _ _ => none, fun _ _ => none⟩

/-- A parsed frame whose only failure indication is a revert reason. -/
def pfRevertOnly : ParsedCallFrame := .mk
  { type := "CALL", fromAddr := "0xa", toAddr := "0xb", value := 0, gas := 100,
    gasUsed := 50, gasPercentage := 50, functionSignature := "fallback()",
    functionName := "fallback", input := "0x", decodedInput := none,
    inputParamNames := none, inputParamTypes := none, output := none,
    decodedOutput := none, outputParamNames := none, outputParamTypes := none,
    error := none, revertReason := some "execution reverted",
    decodedError := none, depth := 0 } .nil

/-- A DELEGATECALL frame B to C whose input is an ERC-20 transfer call with
decoded arguments. -/
def pfDelegChild : ParsedCallFrame := .mk
  { type := "DELEGATECALL", fromAddr := "0xb", toAddr := "0xc", value := 3,
    gas := 10, gasUsed := 5, gasPercentage := 50, functionSignature := "t",
    functionName := "transfer", input := "0xa9059cbb0000",
    decodedInput := some [JsVal.vStr "0xrecipient", JsVal.vInt 100],
    inputParamNames := none, inputParamTypes := none, output := none,
    decodedOutput := none, outputParamNames := none, outputParamTypes := none,
    error := none, revertReason := none, decodedError := none, depth := 1 } .nil

/-- A CALL frame A to B whose single child is `pfDelegChild`. -/
def pfCallParent : ParsedCallFrame := .mk
  { type := "CALL", fromAddr := "0xa", toAddr := "0xb", value := 0, gas := 100,
    gasUsed := 50, gasPercentage := 50, functionSignature := "fallback()",
    functionName := "fallback", input := "0x", decodedInput := none,
    inputParamNames := none, inputParamTypes := none, output := none,
    decodedOutput := none, outputParamNames := none, outputParamTypes := none,
    error := none, revertReason := none, decodedError := none, depth := 0 }
  (.cons pfDelegChild .nil)

/-- A parsed frame carrying a positive native value (used for C10). -/
def pfNativeValue : ParsedCallFrame := .mk
  { type := "CALL", fromAddr := "0xa", toAddr := zeroAddress, value := 7,
    gas := 10, gasUsed := 5, gasPercentage := 50, functionSignature := "fallback()",
    functionName := "fallback", input := "0x", decodedInput := none,
    inputParamNames := none, inputParamTypes := none, output := none,
    decodedOutput := none, outputParamNames := none, outputParamTypes := none,
    error := none, revertReason := none, decodedError := none, depth := 0 } .nil

/-- The native transfer `frameTransfers` emits for `pfNativeValue` (used to
exercise C10). -/
def trNativeValue : TokenTransfer :=
  { ttype := .native, fromAddr := "0xa", toAddr := zeroAddress, amount := 7,
    tokenAddress := none, tokenName := none, tokenSymbol := some "ETH",
    tokenDecimals := some 18, formattedAmount := some (formatTokenAmount 7 18) }

/-- Two transfers colliding on the dedup key, the first with no token symbol,
the second carrying the empty-string symbol (present but falsy). -/
def trNoSymbol : TokenTransfer :=
  { ttype := .erc20, fromAddr := "0xA", toAddr := "0xB", amount := 5,
    tokenAddress := some "0xproxy", tokenName := none, tokenSymbol := none,
    tokenDecimals := none, formattedAmount := none }

/-- See `trNoSymbol`. -/
def trEmptySymbol : TokenTransfer :=
  { ttype := .erc20, fromAddr := "0xa", toAddr := "0xb", amount := 5,
    tokenAddress := some "0ximpl", tokenName := none, tokenSymbol := some "",
    tokenDecimals := none, formattedAmount := none }

/-- A resolved copy of the same logical transfer (used for the C4 witness). -/
def trResolved : TokenTransfer :=
  { ttype := .erc20, fromAddr := "0xa", toAddr := "0xb", amount := 5,
    tokenAddress := some "0ximpl", tokenName := some "Token",
    tokenSymbol := some "TOK", tokenDecimals := some 18, formattedAmount := some "5" }


/-- A minimal raw frame info record. -/
def ciSimple : CallInfo :=
  { type := "CALL", fromAddr := "0xa", toAddr := some "0xb", value := none,
    gas := 100, gasUsed := 40, input := "0x", output := none, error := none,
    revertReason := none }

/-- A minimal raw frame. -/
def rawSimple : CallFrame := .mk ciSimple .nil

/-- The decoded-error/decoded-output quadruple computed by the output block
of `parseCallFrame` from the result of `decodeError` (used to state how
`parseFrameOutput` depends on the decoder state). -/
def parseFrameOutputCore (em : EthersModel) (er : DecodedError × DecState)
    (b : CallInfo) (o : String) :
    Option ErrInfo × Option (List JsVal) × Option (List String) × Option (List Param) :=
  if er.1.name = "Unknown" then
    if !(truthyS b.error) && !(truthyS b.revertReason) then
      match decodeOutput em er.2 b.input o with
      | some od =>
        if 0 < od.values.length then (none, some od.values, some od.names, some od.types)
        else (none, none, none, none)
      | none => (none, none, none, none)
    else (none, none, none, none)
  else (some ⟨er.1.name, er.1.signature, er.1.args⟩, none, none, none)

/-! ## Decoder-state invariants for the purity of re-parsing -/

/-- `Ext S T`: the decoder state `T` extends `S`: same loaded interfaces, and
every cache entry of `S` is present in `T` with the same value (cache entries
are only ever added, never changed). -/
def Ext (S T : DecState) : Prop :=
  S.ifaces = T.ifaces
  ∧ (∀ k v, alookup k S.selC = some v → alookup k T.selC = some v)
  ∧ (∀ k v, alookup k S.errC = some v → alookup k T.errC = some v)

/-- The invariant of every decoder state reachable after `addAbis`: the
caches cover at least all selectors defined by the loaded interfaces
(`addAbis` pre-populates them), and every error-cache entry is accounted for
by a declared custom error or by a builtin fragment found while interfaces
were loaded. -/
def GoodState (em : EthersModel) (S : DecState) : Prop :=
  (∀ k v, alookup k S.selC = some v → ∃ i ∈ S.ifaces, (getFn i k).isSome = true)
  ∧ (∀ k, alookup k S.selC = none → ∀ i ∈ S.ifaces, getFn i k = none)
  ∧ (∀ k v, alookup k S.errC = some v →
      (∃ i ∈ S.ifaces, (findErrDef i k).isSome = true)
      ∨ ((em.builtinError k).isSome = true ∧ S.ifaces ≠ []))
  ∧ (∀ k, alookup k S.errC = none → ∀ i ∈ S.ifaces, findErrDef i k = none)

/-! ## General helper lemmas -/

theorem truthyS_some_iff (s : String) : truthyS (some s) = true ↔ s ≠ "" := by
  simp [truthyS]

theorem jsOr_of_truthy {x : Option String} (y : Option String)
    (h : truthyS x = true) : jsOr x y = x := by
  simp [jsOr, h]

theorem jsOr_of_not_truthy {x : Option String} (y : Option String)
    (h : truthyS x = false) : jsOr x y = y := by
  simp [jsOr, h]

theorem truthyS_jsOr (x y : Option String) :
    truthyS (jsOr x y) = (truthyS x || truthyS y) := by
  unfold jsOr
  cases h : truthyS x <;> simp [h]

theorem jsOr_jsOr_of_truthy {y : Option String} (x z : Option String)
    (h : truthyS y = true) : jsOr (jsOr x y) z = jsOr x y := by
  apply jsOr_of_truthy
  rw [truthyS_jsOr, h, Bool.or_true]

/-! ## Statistics: fold characterization (`calculateStats`) -/

mutual
theorem statsGo_eq_foldl : ∀ (f : ParsedCallFrame) (a : StatAcc),
    statsGo f a = List.foldl statsVisit a (allFramesL f.calls)
  | .mk b kids, a => by
    simp only [statsGo, ParsedCallFrame.calls]
    exact statsList_eq_foldl kids a
theorem statsList_eq_foldl : ∀ (fs : ParsedCallFrames) (a : StatAcc),
    statsList fs a = List.foldl statsVisit a (allFramesL fs)
  | .nil, a => by simp [statsList, allFramesL]
  | .cons c cs, a => by
    simp only [statsList, allFramesL, allFrames]
    rw [statsList_eq_foldl cs, statsGo_eq_foldl c]
    cases c with
    | mk bc kc =>
      simp only [ParsedCallFrame.calls, allFrames]
      simp [List.foldl_append]
end

theorem foldl_statsVisit_hasError (l : List ParsedCallFrame) (a : StatAcc) :
    (List.foldl statsVisit a l).hasError
      = (a.hasError || l.any fun c => truthyS c.info.error) := by
  induction l generalizing a with
  | nil => simp
  | cons c cs ih =>
    rw [List.foldl_cons, ih]
    simp [statsVisit, Bool.or_assoc]

theorem foldl_statsVisit_errorMessage (l : List ParsedCallFrame) (a : StatAcc) :
    (List.foldl statsVisit a l).errorMessage
      = (match l.find? (fun c => truthyS c.info.error) with
         | some c => jsOr a.errorMessage c.info.error
         | none => a.errorMessage) := by
  induction l generalizing a with
  | nil => simp
  | cons c cs ih =>
    rw [List.foldl_cons, ih]
    cases hc : truthyS c.info.error with
    | false =>
      rw [List.find?_cons_of_neg _ (by simp [hc])]
      simp [statsVisit, hc]
    | true =>
      rw [List.find?_cons_of_pos _ (by simp [hc])]
      have hvis : (statsVisit a c).errorMessage = jsOr a.errorMessage c.info.error := by
        simp only [statsVisit, hc, if_true]
        rw [jsOr_of_truthy _ hc]
      rw [hvis]
      cases hfind : cs.find? (fun c => truthyS c.info.error) with
      | none => rfl
      | some c2 => exact jsOr_jsOr_of_truthy a.errorMessage c2.info.error hc

/-! ## Claim C1 -/

/-- Claim C1 (counterexample): a root frame that carries only a non-empty
`revertReason` (no `error`) does not set `hasError`; `calculateStats` latches
`hasError` from `error` fields alone. -/
theorem calculateStats_revertReason_no_hasError :
    pfRevertOnly.info.error = none
    ∧ pfRevertOnly.info.revertReason = some "execution reverted"
    ∧ (calculateStats pfRevertOnly).hasError = false := by decide

/-- Claim C1 (amended): `hasError` is true iff the root or some descendant
carries a non-empty `error` field (a `revertReason` alone never sets it);
`errorMessage` is the root `error`, else the root `revertReason`, else the
`error` of the first frame in pre-order with a non-empty `error`, and later
frames never overwrite it. -/
theorem calculateStats_error_latch (f : ParsedCallFrame) :
    (calculateStats f).hasError
      = (truthyS f.info.error || (descFrames f).any fun c => truthyS c.info.error)
    ∧ (calculateStats f).errorMessage
      = (match (descFrames f).find? (fun c => truthyS c.info.error) with
         | some c => jsOr (jsOr f.info.error f.info.revertReason) c.info.error
         | none => jsOr f.info.error f.info.revertReason) := by
  constructor
  · simp only [calculateStats, descFrames]
    rw [statsGo_eq_foldl, foldl_statsVisit_hasError]
  · simp only [calculateStats, descFrames]
    rw [statsGo_eq_foldl, foldl_statsVisit_errorMessage]

/-! ## Claim C3 -/

/-- Claim C3 (counterexample): at `gas = 3`, `gasUsed = 2` the code computes
66.66, not the round-to-nearest two-decimal value 66.67: the ratio is
truncated, not rounded. -/
theorem gasPercentage_not_rounded :
    gasPercentage 3 2 ≠ ((round ((2 : ℚ) / 3 * 100 * 100) : ℤ) : ℚ) / 100 := by
  have h1 : gasPercentage 3 2 = (6666 : ℚ) / 100 := by
    norm_num [gasPercentage, roundTo53]
  have h2 : round ((2 : ℚ) / 3 * 100 * 100) = 6667 := by
    rw [round_eq]
    rw [show ((2 : ℚ) / 3 * 100 * 100 + 1 / 2) = (40003 : ℚ) / 6 by ring]
    rw [Int.floor_eq_iff]
    constructor <;> norm_num
  rw [h1, h2]
  norm_num

/-- Claim C3 (amended): for positive `gas` (and any value in the exactly
representable double range, which covers every well-formed frame) the
computed percentage is the exact ratio as a percentage truncated (floored) to
two decimal places, and it is 0 when `gas` is 0. -/
theorem gasPercentage_truncation (gas gasUsed : Nat)
    (hsmall : gasUsed * 10000 / gas < 2 ^ 53) :
    (0 < gas → gasPercentage gas gasUsed
        = ((Nat.floor ((gasUsed : ℚ) / (gas : ℚ) * 100 * 100) : ℕ) : ℚ) / 100)
    ∧ (gas = 0 → gasPercentage gas gasUsed = 0) := by
  constructor
  · intro hg
    unfold gasPercentage roundTo53
    rw [if_pos hg, if_pos hsmall]
    have hcast : (gasUsed : ℚ) / (gas : ℚ) * 100 * 100
        = ((gasUsed * 10000 : ℕ) : ℚ) / ((gas : ℕ) : ℚ) := by
      push_cast
      ring
    rw [hcast, Nat.floor_div_nat, Nat.floor_natCast]
  · intro h0
    simp [gasPercentage, h0]

/-- Witness for `gasPercentage_truncation` at `gas = 3`, `gasUsed = 2`. -/
theorem gasPercentage_truncation_witness :
    (2 * 10000 / 3 < 2 ^ 53) ∧ (0 < 3) ∧
    gasPercentage 3 2 = ((Nat.floor ((2 : ℚ) / (3 : ℚ) * 100 * 100) : ℕ) : ℚ) / 100 :=
  ⟨by norm_num, by norm_num,
    (gasPercentage_truncation 3 2 (by norm_num)).1 (by norm_num)⟩

/-! ## Claim C6 -/

/-- Claim C6 (code bug): the three specified examples hold, but the divisor
is `BigInt(10 ** decimals)`, computed in double precision; at
`decimals = 23` it equals 99999999999999991611392 rather than `10 ^ 23`, so
`formatTokenAmount(10 ^ 23, 23)` returns "1.000000" instead of the "1" that
an exact `10 ^ decimals` split would produce. -/
theorem formatTokenAmount_float_divisor :
    formatTokenAmount 1000000 6 = "1"
    ∧ formatTokenAmount 1500000 6 = "1.5"
    ∧ formatTokenAmount 1234567890 9 = "1.234567"
    ∧ jsPow10 23 = 99999999999999991611392
    ∧ jsPow10 23 ≠ 10 ^ 23
    ∧ formatTokenAmount (10 ^ 23) 23 = "1.000000" := by decide

/-! ## Claim C9 -/

/-- Claim C9: calldata that is empty, `0x`, or shorter than 10 characters
(4 bytes after the prefix) decodes to the synthetic `fallback()` function
with no params, param names or param types, and the decoder state is
untouched. -/
theorem decodeCalldata_short_fallback (em : EthersModel) (S : DecState) (cd : String)
    (h : cd = "" ∨ cd = "0x" ∨ cd.length < 10) :
    decodeCalldata em S cd
      = (⟨⟨"fallback()", "fallback", "0x"⟩, none, none, none⟩, S) := by
  have hb : (cd == "" || cd == "0x" || decide (cd.length < 10)) = true := by
    rcases h with h | h | h <;> simp [h]
  unfold decodeCalldata
  rw [if_pos hb]

/-- Witness for `decodeCalldata_short_fallback` at the literal `0x`. -/
theorem decodeCalldata_short_fallback_witness :
    ("0x" = "" ∨ "0x" = "0x" ∨ ("0x" : String).length < 10)
    ∧ decodeCalldata emTrivial (mkDecoder []) "0x"
      = (⟨⟨"fallback()", "fallback", "0x"⟩, none, none, none⟩, mkDecoder []) :=
  ⟨Or.inr (Or.inl rfl),
    decodeCalldata_short_fallback emTrivial (mkDecoder []) "0x" (Or.inr (Or.inl rfl))⟩


/-! ## Prefix uniqueness (transfer selector discrimination) -/

theorem listStarts_unique : ∀ (p q s : List Char),
    listStarts p s = true → listStarts q s = true → p.length = q.length → p = q
  | [], [], _, _, _, _ => rfl
  | [], _ :: _, _, _, _, hl => by simp at hl
  | _ :: _, [], _, _, _, hl => by simp at hl
  | _ :: _, _ :: _, [], hp, _, _ => by simp [listStarts] at hp
  | a :: as, b :: bs, c :: cs, hp, hq, hl => by
    simp only [listStarts, Bool.and_eq_true, beq_iff_eq] at hp hq
    obtain ⟨rfl, hp2⟩ := hp
    obtain ⟨rfl, hq2⟩ := hq
    simp only [List.length_cons, Nat.add_right_cancel_iff] at hl
    rw [listStarts_unique as bs cs hp2 hq2 hl]

theorem strStarts_unique {s p q : String} (hp : strStarts s p = true)
    (hq : strStarts s q = true) (hl : p.data.length = q.data.length) : p.data = q.data :=
  listStarts_unique p.data q.data s.data hp hq hl

/-! ## Field characterizations of the transfer parsers -/

theorem parseTransferCall_fields {f : ParsedCallFrame} {tr : TokenTransfer}
    (h : parseTransferCall f = some tr) :
    tr.ttype = TType.erc20 ∧ tr.tokenAddress = some f.info.toAddr := by
  unfold parseTransferCall at h
  split at h
  · exact absurd h (by simp)
  · split at h
    · exact absurd h (by simp)
    · split at h
      · obtain rfl := Option.some_injective _ h
        exact ⟨rfl, rfl⟩
      · exact absurd h (by simp)

theorem parseTransferFromCall_fields {f : ParsedCallFrame} {tr : TokenTransfer}
    (h : parseTransferFromCall f = some tr) :
    tr.ttype = TType.erc20 ∧ tr.tokenAddress = some f.info.toAddr := by
  unfold parseTransferFromCall at h
  split at h
  · exact absurd h (by simp)
  · split at h
    · exact absurd h (by simp)
    · split at h
      · obtain rfl := Option.some_injective _ h
        exact ⟨rfl, rfl⟩
      · exact absurd h (by simp)

theorem overrideDelegFrom_fields (d : Bool) (par : Option ParsedCallFrame)
    (tr : TokenTransfer) :
    (overrideDelegFrom d par tr).ttype = tr.ttype
    ∧ (overrideDelegFrom d par tr).toAddr = tr.toAddr
    ∧ (overrideDelegFrom d par tr).tokenAddress = tr.tokenAddress := by
  unfold overrideDelegFrom
  cases par with
  | none => exact ⟨rfl, rfl, rfl⟩
  | some p => cases d <;> simp

/-! ## Claim C2 -/

theorem mem_traverseFramesL {t : TokenTransfer} : ∀ (fs : ParsedCallFrames)
    (par f : ParsedCallFrame), f ∈ fs.toList → t ∈ traverseFrame f (some par) →
    t ∈ traverseFramesL fs par
  | .nil, _, _, h, _ => by simp [ParsedCallFrames.toList] at h
  | .cons c cs, par, f, h, ht => by
    simp only [ParsedCallFrames.toList, List.mem_cons] at h
    simp only [traverseFramesL, List.mem_append]
    rcases h with rfl | h
    · exact Or.inl ht
    · exact Or.inr (mem_traverseFramesL cs par f h ht)

/-- No native-value transfer is ever emitted at a DELEGATECALL frame itself,
whatever its `value`, its input, or its parent: the native detection is
guarded by `!isDelegateCall`, and the ERC-20 detections only emit `erc20`
transfers. -/
theorem frameTransfers_delegate_no_native (g : ParsedCallFrame)
    (par : Option ParsedCallFrame) (hdg : g.info.type = "DELEGATECALL") :
    ∀ tr ∈ frameTransfers g par, tr.ttype ≠ TType.native := by
  intro tr htr
  have hdel : (g.info.type == "DELEGATECALL") = true := by simp [hdg]
  simp only [frameTransfers, List.mem_append] at htr
  rcases htr with (h | h) | h
  · rw [hdel] at h
    simp at h
  · split at h
    case isTrue =>
      split at h
      case h_1 tr0 heq =>
        split at h
        · obtain rfl := List.mem_singleton.mp h
          obtain ⟨h1, _⟩ := parseTransferCall_fields heq
          obtain ⟨o1, _, _⟩ :=
            overrideDelegFrom_fields (g.info.type == "DELEGATECALL") par tr0
          intro hc
          rw [o1, h1] at hc
          simp at hc
        · simp at h
      case h_2 => simp at h
    case isFalse => simp at h
  · split at h
    case isTrue =>
      split at h
      case h_1 tr0 heq =>
        split at h
        · obtain rfl := List.mem_singleton.mp h
          obtain ⟨h1, _⟩ := parseTransferFromCall_fields heq
          obtain ⟨o1, _, _⟩ :=
            overrideDelegFrom_fields (g.info.type == "DELEGATECALL") par tr0
          intro hc
          rw [o1, h1] at hc
          simp at hc
        · simp at h
      case h_2 => simp at h
    case isFalse => simp at h

/-- Claim C2: within a CALL frame, a child DELEGATECALL frame carrying a
decodable ERC-20 transfer yields a transfer attributed to the parent frame
`from` (the delegating caller); and for every DELEGATECALL frame whatsoever
(any parent, any input, any positive `value`), no native-value transfer is
emitted for that frame. -/
theorem delegatecall_transfer_attribution
    (p f : ParsedCallFrame) (toA : String) (amt : Nat) (rest : List JsVal)
    (hp : p.info.type = "CALL")
    (hmem : f ∈ p.calls.toList)
    (hty : f.info.type = "DELEGATECALL")
    (hsel : strStarts f.info.input TRANSFER_SELECTOR = true)
    (hdec : f.info.decodedInput = some (JsVal.vStr toA :: JsVal.vInt amt :: rest))
    (htok : f.info.toAddr ≠ "") :
    ({ ttype := .erc20, fromAddr := p.info.fromAddr, toAddr := toA, amount := amt,
       tokenAddress := some f.info.toAddr, tokenName := none, tokenSymbol := none,
       tokenDecimals := none, formattedAmount := none } : TokenTransfer)
      ∈ traverseFrame p none
    ∧ ∀ (g : ParsedCallFrame) (par : Option ParsedCallFrame),
        g.info.type = "DELEGATECALL" →
        ∀ tr ∈ frameTransfers g par, tr.ttype ≠ TType.native := by
  have hdeleg : (f.info.type == "DELEGATECALL") = true := by simp [hty]
  have hsel2 : strStarts f.info.input TRANSFER_FROM_SELECTOR = false := by
    by_contra hcon
    rw [Bool.not_eq_false] at hcon
    have hdata := strStarts_unique hsel hcon (by decide)
    exact absurd hdata (by decide)
  have hparse : parseTransferCall f
      = some { ttype := .erc20, fromAddr := f.info.fromAddr, toAddr := toA, amount := amt,
               tokenAddress := some f.info.toAddr, tokenName := none, tokenSymbol := none,
               tokenDecimals := none, formattedAmount := none } := by
    unfold parseTransferCall
    rw [hdec]
    simp
  have hft : frameTransfers f (some p)
      = [{ ttype := .erc20, fromAddr := p.info.fromAddr, toAddr := toA, amount := amt,
           tokenAddress := some f.info.toAddr, tokenName := none, tokenSymbol := none,
           tokenDecimals := none, formattedAmount := none }] := by
    unfold frameTransfers
    rw [hdeleg]
    simp only [isTransferCall, isTransferFromCall, hsel, hsel2, hparse, Bool.not_true,
      Bool.and_false, if_false, if_true]
    have htru : truthyS (some f.info.toAddr) = true := by simp [truthyS, htok]
    rw [htru]
    simp [overrideDelegFrom]
  constructor
  · cases p with
    | mk bp kp =>
      simp only [traverseFrame, List.mem_append]
      right
      apply mem_traverseFramesL kp (.mk bp kp) f hmem
      cases f with
      | mk bf kf =>
        simp only [traverseFrame, List.mem_append]
        left
        rw [hft]
        exact List.mem_singleton.mpr rfl
  · exact fun g par hdg => frameTransfers_delegate_no_native g par hdg

/-- Witness for `delegatecall_transfer_attribution` on the concrete two-frame
tree `pfCallParent` / `pfDelegChild` (whose DELEGATECALL child carries
`value = 3 > 0`): the detected transfer is attributed to the parent, and the
transfer the child does emit is not a native one. -/
theorem delegatecall_transfer_attribution_witness :
    ({ ttype := .erc20, fromAddr := "0xa", toAddr := "0xrecipient", amount := 100,
       tokenAddress := some "0xc", tokenName := none, tokenSymbol := none,
       tokenDecimals := none, formattedAmount := none } : TokenTransfer)
      ∈ traverseFrame pfCallParent none
    ∧ ({ ttype := .erc20, fromAddr := "0xa", toAddr := "0xrecipient", amount := 100,
         tokenAddress := some "0xc", tokenName := none, tokenSymbol := none,
         tokenDecimals := none, formattedAmount := none } : TokenTransfer).ttype
        ≠ TType.native :=
  have h := delegatecall_transfer_attribution pfCallParent pfDelegChild "0xrecipient" 100 []
    rfl (List.mem_singleton.mpr rfl) rfl (by decide) rfl (by decide)
  ⟨h.1, h.2 pfDelegChild (some pfCallParent) rfl _ (by decide)⟩

/-! ## Claim C10 -/

/-- Claim C10: an absent or empty raw `to` field is replaced by the zero
address and a non-empty one is preserved unchanged; any transfer detected on
a frame carries that frame `to` as its own `to` (native) or `tokenAddress`
(ERC-20), so the sentinel propagates into detected transfers. -/
theorem parse_to_zero_address_default (em : EthersModel) (S : DecState) (d : Nat)
    (b : CallInfo) (kids : CallFrames) :
    ((parseCallFrame em (.mk b kids) d S).1.info.toAddr
        = match b.toAddr with
          | some s => if s = "" then zeroAddress else s
          | none => zeroAddress)
    ∧ ∀ (pf : ParsedCallFrame) (par : Option ParsedCallFrame) (tr : TokenTransfer),
        tr ∈ frameTransfers pf par →
        (tr.ttype = TType.native → tr.toAddr = pf.info.toAddr)
        ∧ (tr.ttype = TType.erc20 → tr.tokenAddress = some pf.info.toAddr) := by
  constructor
  · simp only [parseCallFrame, ParsedCallFrame.info]
    unfold tsOrElse
    cases b.toAddr with
    | none => rfl
    | some s => by_cases hs : s = "" <;> simp [hs]
  · intro pf par tr htr
    simp only [frameTransfers, List.mem_append] at htr
    rcases htr with (h | h) | h
    · split at h
      · obtain rfl := List.mem_singleton.mp h
        exact ⟨fun _ => rfl, fun hc => by simp at hc⟩
      · simp at h
    · split at h
      case isTrue =>
        split at h
        case h_1 tr0 heq =>
          split at h
          · obtain rfl := List.mem_singleton.mp h
            obtain ⟨h1, h2⟩ := parseTransferCall_fields heq
            obtain ⟨o1, o2, o3⟩ := overrideDelegFrom_fields (pf.info.type == "DELEGATECALL") par tr0
            refine ⟨fun hc => ?_, fun _ => ?_⟩
            · rw [o1, h1] at hc
              simp at hc
            · rw [o3, h2]
          · simp at h
        case h_2 => simp at h
      case isFalse => simp at h
    · split at h
      case isTrue =>
        split at h
        case h_1 tr0 heq =>
          split at h
          · obtain rfl := List.mem_singleton.mp h
            obtain ⟨h1, h2⟩ := parseTransferFromCall_fields heq
            obtain ⟨o1, o2, o3⟩ := overrideDelegFrom_fields (pf.info.type == "DELEGATECALL") par tr0
            refine ⟨fun hc => ?_, fun _ => ?_⟩
            · rw [o1, h1] at hc
              simp at hc
            · rw [o3, h2]
          · simp at h
        case h_2 => simp at h
      case isFalse => simp at h

/-- Witness for `parse_to_zero_address_default`: the native transfer detected
on `pfNativeValue` (whose `to` is the zero address) carries the zero address
as its `to`. -/
theorem parse_to_zero_address_default_witness :
    trNativeValue ∈ frameTransfers pfNativeValue none
    ∧ trNativeValue.toAddr = pfNativeValue.info.toAddr :=
  ⟨by decide,
    ((parse_to_zero_address_default emTrivial (mkDecoder []) 0 ciSimple .nil).2
      pfNativeValue none trNativeValue (by decide)).1 rfl⟩


/-! ## Association-list lemmas (`Map.get` / `Map.set`) -/

theorem alookup_aset_self {α : Type} (k : String) (v : α) :
    ∀ m : List (String × α), alookup k (aset k v m) = some v
  | [] => by simp [aset, alookup]
  | (k0, v0) :: m => by
    by_cases h : k0 = k
    · simp [aset, h, alookup]
    · simp only [aset, if_neg h, alookup]
      exact alookup_aset_self k v m

theorem alookup_aset_ne {α : Type} {k k' : String} (v : α) (h : k' ≠ k) :
    ∀ m : List (String × α), alookup k' (aset k v m) = alookup k' m
  | [] => by
    simp only [aset, alookup]
    rw [if_neg (Ne.symm h)]
  | (k0, v0) :: m => by
    by_cases h0 : k0 = k
    · subst h0
      simp only [aset, if_pos rfl, alookup]
      rw [if_neg (Ne.symm h), if_neg (Ne.symm h)]
    · simp only [aset, if_neg h0, alookup]
      rw [alookup_aset_ne v h m]

theorem alookup_isSome_aset {α : Type} (k k' : String) (v : α) (m : List (String × α)) :
    (alookup k' (aset k v m)).isSome = true ↔ k' = k ∨ (alookup k' m).isSome = true := by
  by_cases h : k' = k
  · subst h
    simp [alookup_aset_self]
  · rw [alookup_aset_ne v h m]
    simp [h]

theorem alookup_eq_none_iff {α : Type} (k : String) :
    ∀ m : List (String × α), alookup k m = none ↔ k ∉ m.map Prod.fst
  | [] => by simp [alookup]
  | (k0, v0) :: m => by
    simp only [alookup, List.map_cons, List.mem_cons]
    by_cases h : k0 = k
    · subst h
      simp
    · rw [if_neg h]
      rw [alookup_eq_none_iff k m]
      have hk : ¬(k = k0) := fun he => h he.symm
      simp [hk]

theorem alookup_isSome_iff_mem {α : Type} (k : String) (m : List (String × α)) :
    (alookup k m).isSome = true ↔ k ∈ m.map Prod.fst := by
  rw [← Decidable.not_not (p := k ∈ m.map Prod.fst), ← alookup_eq_none_iff]
  cases h : alookup k m <;> simp [h]

theorem aset_eq_append_of_none {α : Type} {k : String} (v : α) :
    ∀ m : List (String × α), alookup k m = none → aset k v m = m ++ [(k, v)]
  | [], _ => rfl
  | (k0, v0) :: m, h => by
    simp only [alookup] at h
    by_cases h0 : k0 = k
    · rw [if_pos h0] at h
      exact absurd h (by simp)
    · rw [if_neg h0] at h
      simp only [aset, if_neg h0, List.cons_append]
      rw [aset_eq_append_of_none v m h]

theorem aset_map_fst_of_isSome {α : Type} {k : String} (v : α) :
    ∀ m : List (String × α), (alookup k m).isSome = true →
      (aset k v m).map Prod.fst = m.map Prod.fst
  | [], h => by simp [alookup] at h
  | (k0, v0) :: m, h => by
    by_cases h0 : k0 = k
    · simp [aset, h0]
    · simp only [alookup, if_neg h0] at h
      simp only [aset, if_neg h0, List.map_cons]
      rw [aset_map_fst_of_isSome v m h]

theorem mem_aset {α : Type} {p : String × α} {k : String} {v : α} :
    ∀ {m : List (String × α)}, p ∈ aset k v m → p = (k, v) ∨ p ∈ m := by
  intro m
  induction m with
  | nil => simp [aset]
  | cons q m ih =>
    cases q with
    | mk q1 q2 =>
      by_cases h0 : q1 = k
      · simp only [aset, if_pos h0, List.mem_cons]
        rintro (rfl | h)
        · exact Or.inl rfl
        · exact Or.inr (Or.inr h)
      · simp only [aset, if_neg h0, List.mem_cons]
        rintro (rfl | h)
        · exact Or.inr (Or.inl rfl)
        · rcases ih h with h | h
          · exact Or.inl h
          · exact Or.inr (Or.inr h)

/-! ## Deduplication invariants -/

theorem dedupStep_of_none {seen : List (String × TokenTransfer)} {t : TokenTransfer}
    (hc : alookup (transferKey t) seen = none) :
    dedupStep seen t = aset (transferKey t) t seen := by
  simp only [dedupStep]
  rw [hc]

theorem dedupStep_of_some_replace {seen : List (String × TokenTransfer)}
    {t ex : TokenTransfer} (hc : alookup (transferKey t) seen = some ex)
    (hmb : (hasMetadataB t && !hasMetadataB ex) = true) :
    dedupStep seen t = aset (transferKey t) t seen := by
  simp only [dedupStep]
  rw [hc]
  simp [hmb]

theorem dedupStep_of_some_keep {seen : List (String × TokenTransfer)}
    {t ex : TokenTransfer} (hc : alookup (transferKey t) seen = some ex)
    (hmb : (hasMetadataB t && !hasMetadataB ex) = false) :
    dedupStep seen t = seen := by
  simp only [dedupStep]
  rw [hc]
  simp [hmb]

theorem dedupStep_inv {ts : List TokenTransfer} {seen : List (String × TokenTransfer)}
    (t : TokenTransfer) (ht : t ∈ ts)
    (h1 : (seen.map Prod.fst).Nodup)
    (h2 : ∀ p ∈ seen, p.1 = transferKey p.2 ∧ p.2 ∈ ts) :
    ((dedupStep seen t).map Prod.fst).Nodup
    ∧ (∀ p ∈ dedupStep seen t, p.1 = transferKey p.2 ∧ p.2 ∈ ts)
    ∧ (∀ k, k ∈ seen.map Prod.fst → k ∈ (dedupStep seen t).map Prod.fst)
    ∧ transferKey t ∈ (dedupStep seen t).map Prod.fst := by
  cases hc : alookup (transferKey t) seen with
  | none =>
    rw [dedupStep_of_none hc, aset_eq_append_of_none t seen hc]
    have hnotmem : transferKey t ∉ seen.map Prod.fst := (alookup_eq_none_iff _ seen).mp hc
    refine ⟨?_, ?_, ?_, ?_⟩
    · simp only [List.map_append, List.map_cons, List.map_nil]
      rw [List.nodup_append]
      refine ⟨h1, List.nodup_singleton _, ?_⟩
      intro a ha hb
      simp only [List.mem_singleton] at hb
      subst hb
      exact hnotmem ha
    · intro p hp
      rcases List.mem_append.mp hp with h | h
      · exact h2 p h
      · simp only [List.mem_singleton] at h
        subst h
        exact ⟨rfl, ht⟩
    · intro k hk
      simp only [List.map_append, List.mem_append]
      exact Or.inl hk
    · simp
  | some ex =>
    have hsome : (alookup (transferKey t) seen).isSome = true := by simp [hc]
    cases hmb : (hasMetadataB t && !hasMetadataB ex) with
    | true =>
      rw [dedupStep_of_some_replace hc hmb]
      refine ⟨?_, ?_, ?_, ?_⟩
      · rw [aset_map_fst_of_isSome t seen hsome]
        exact h1
      · intro p hp
        rcases mem_aset hp with rfl | h
        · exact ⟨rfl, ht⟩
        · exact h2 p h
      · intro k hk
        rw [aset_map_fst_of_isSome t seen hsome]
        exact hk
      · rw [aset_map_fst_of_isSome t seen hsome]
        exact (alookup_isSome_iff_mem _ seen).mp hsome
    | false =>
      rw [dedupStep_of_some_keep hc hmb]
      exact ⟨h1, h2, fun k hk => hk,
        (alookup_isSome_iff_mem _ seen).mp hsome⟩

theorem dedup_foldl_inv :
    ∀ (l : List TokenTransfer) (seen : List (String × TokenTransfer))
      (ts : List TokenTransfer),
    (∀ x ∈ l, x ∈ ts) →
    (seen.map Prod.fst).Nodup →
    (∀ p ∈ seen, p.1 = transferKey p.2 ∧ p.2 ∈ ts) →
    ((List.foldl dedupStep seen l).map Prod.fst).Nodup
    ∧ (∀ p ∈ List.foldl dedupStep seen l, p.1 = transferKey p.2 ∧ p.2 ∈ ts)
    ∧ (∀ k, k ∈ seen.map Prod.fst → k ∈ (List.foldl dedupStep seen l).map Prod.fst)
    ∧ (∀ x ∈ l, transferKey x ∈ (List.foldl dedupStep seen l).map Prod.fst)
  | [], seen, ts, _, h1, h2 => ⟨h1, h2, fun _ hk => hk, by simp⟩
  | t :: l, seen, ts, hsub, h1, h2 => by
    have hstep := dedupStep_inv t (hsub t (List.mem_cons_self t l)) h1 h2
    have hrest := dedup_foldl_inv l (dedupStep seen t) ts
      (fun x hx => hsub x (List.mem_cons_of_mem t hx)) hstep.1 hstep.2.1
    rw [List.foldl_cons]
    refine ⟨hrest.1, hrest.2.1, ?_, ?_⟩
    · intro k hk
      exact hrest.2.2.1 k (hstep.2.2.1 k hk)
    · intro x hx
      rcases List.mem_cons.mp hx with rfl | hx
      · exact hrest.2.2.1 _ hstep.2.2.2
      · exact hrest.2.2.2 x hx

/-! ## Claim C4 -/

/-- Claim C4 (counterexample): with the key-colliding pair `trNoSymbol`
(symbol absent) and `trEmptySymbol` (symbol present as the empty string and
distinct from UNKNOWN), the claim as stated demands that the "resolved"
second transfer be kept, but the code treats an empty-string symbol as
unresolved and keeps the first transfer. -/
theorem dedup_keeps_unresolved_empty_symbol :
    transferKey trNoSymbol = transferKey trEmptySymbol
    ∧ trEmptySymbol.tokenSymbol.isSome = true
    ∧ trEmptySymbol.tokenSymbol ≠ some "UNKNOWN"
    ∧ trNoSymbol.tokenSymbol = none
    ∧ trNoSymbol ≠ trEmptySymbol
    ∧ deduplicateTransfers [trNoSymbol, trEmptySymbol] = [trNoSymbol] := by decide

/-- Claim C4 (amended): deduplication keys transfers by `(from, to, amount,
type)` with addresses lowercased and `tokenAddress` excluded; exactly one
transfer per key survives (keys of the output are distinct, every input key
is represented, every output element is an input element), and on a
two-element collision the second is kept precisely when it has a non-empty,
non-UNKNOWN `tokenSymbol` and the first does not; otherwise the first
encountered is kept. -/
theorem deduplicateTransfers_spec (ts : List TokenTransfer)
    (t1 t2 : TokenTransfer) (hk : transferKey t1 = transferKey t2) :
    ((deduplicateTransfers ts).map transferKey).Nodup
    ∧ (∀ t ∈ ts, ∃ u ∈ deduplicateTransfers ts, transferKey u = transferKey t)
    ∧ (∀ u ∈ deduplicateTransfers ts, u ∈ ts)
    ∧ deduplicateTransfers [t1, t2]
        = [if hasMetadataB t2 && !hasMetadataB t1 then t2 else t1] := by
  have hinv := dedup_foldl_inv ts [] ts (fun x hx => hx) (by simp) (by simp)
  refine ⟨?_, ?_, ?_, ?_⟩
  · unfold deduplicateTransfers
    have : ((List.foldl dedupStep [] ts).map Prod.snd).map transferKey
        = (List.foldl dedupStep [] ts).map Prod.fst := by
      rw [List.map_map]
      apply List.map_congr_left
      intro p hp
      exact ((hinv.2.1 p hp).1).symm
    rw [this]
    exact hinv.1
  · intro t ht
    unfold deduplicateTransfers
    have hkey := hinv.2.2.2 t ht
    rcases List.mem_map.mp hkey with ⟨p, hp, hpk⟩
    refine ⟨p.2, List.mem_map.mpr ⟨p, hp, rfl⟩, ?_⟩
    rw [← (hinv.2.1 p hp).1, hpk]
  · intro u hu
    unfold deduplicateTransfers at hu
    rcases List.mem_map.mp hu with ⟨p, hp, hpu⟩
    rw [← hpu]
    exact (hinv.2.1 p hp).2
  · unfold deduplicateTransfers
    simp only [List.foldl_cons, List.foldl_nil]
    have hstep1 : dedupStep [] t1 = [(transferKey t1, t1)] := by
      rw [dedupStep_of_none (by simp [alookup])]
      simp [aset]
    rw [hstep1]
    have hl : alookup (transferKey t2) [(transferKey t1, t1)] = some t1 := by
      simp [alookup, hk]
    cases hmb : (hasMetadataB t2 && !hasMetadataB t1) with
    | true =>
      rw [dedupStep_of_some_replace hl hmb]
      have ha : aset (transferKey t2) t2 [(transferKey t1, t1)] = [(transferKey t2, t2)] := by
        simp [aset, hk]
      rw [ha]
      simp
    | false =>
      rw [dedupStep_of_some_keep hl hmb]
      simp

/-- Witness for `deduplicateTransfers_spec`: a key collision between an
unresolved and a resolved transfer keeps the resolved one. -/
theorem deduplicateTransfers_spec_witness :
    deduplicateTransfers [trNoSymbol, trResolved] = [trResolved] := by
  rw [(deduplicateTransfers_spec [trNoSymbol] trNoSymbol trResolved (by decide)).2.2.2]
  decide


/-! ## Decoder cache characterization after construction -/

theorem cache_foldl_isSome {α : Type} (val : Frag → α) :
    ∀ (fs : List Frag) (m : List (String × α)) (k : String),
    (alookup k (fs.foldl (fun m f => aset (strLower f.selector) (val f) m) m)).isSome = true
      ↔ (alookup k m).isSome = true ∨ ∃ f ∈ fs, strLower f.selector = k
  | [], m, k => by simp
  | f :: fs, m, k => by
    rw [List.foldl_cons, cache_foldl_isSome val fs _ k]
    rw [alookup_isSome_aset]
    constructor
    · rintro ((rfl | h) | ⟨g, hg, hgk⟩)
      · exact Or.inr ⟨f, List.mem_cons_self f fs, rfl⟩
      · exact Or.inl h
      · exact Or.inr ⟨g, List.mem_cons_of_mem f hg, hgk⟩
    · rintro (h | ⟨g, hg, hgk⟩)
      · exact Or.inl (Or.inr h)
      · rcases List.mem_cons.mp hg with rfl | hg
        · exact Or.inl (Or.inl hgk.symm)
        · exact Or.inr ⟨g, hg, hgk⟩

theorem addIface_ifaces (S : DecState) (i : Iface) :
    (addIface S i).ifaces = S.ifaces ++ [i] := rfl

theorem addAbis_ifaces : ∀ (abis : List (Option Iface)) (S : DecState),
    (addAbis S abis).ifaces = S.ifaces ++ abis.filterMap id
  | [], S => by simp [addAbis]
  | none :: abis, S => by
    simp only [addAbis, List.foldl_cons]
    rw [show (List.foldl (fun s a => match a with | some i => addIface s i | none => s) S abis)
          = addAbis S abis from rfl]
    rw [addAbis_ifaces abis S]
    simp
  | some i :: abis, S => by
    simp only [addAbis, List.foldl_cons]
    rw [show (List.foldl (fun s a => match a with | some i => addIface s i | none => s)
            (addIface S i) abis) = addAbis (addIface S i) abis from rfl]
    rw [addAbis_ifaces abis (addIface S i), addIface_ifaces]
    simp

theorem addAbis_selC_isSome : ∀ (abis : List (Option Iface)) (S : DecState) (k : String),
    (alookup k (addAbis S abis).selC).isSome = true
      ↔ (alookup k S.selC).isSome = true
        ∨ ∃ i ∈ abis.filterMap id, ∃ f ∈ i.funcs, strLower f.selector = k
  | [], S, k => by simp [addAbis]
  | none :: abis, S, k => by
    simp only [addAbis, List.foldl_cons]
    rw [show (List.foldl (fun s a => match a with | some i => addIface s i | none => s) S abis)
          = addAbis S abis from rfl]
    rw [addAbis_selC_isSome abis S k]
    simp
  | some i :: abis, S, k => by
    simp only [addAbis, List.foldl_cons]
    rw [show (List.foldl (fun s a => match a with | some i => addIface s i | none => s)
            (addIface S i) abis) = addAbis (addIface S i) abis from rfl]
    rw [addAbis_selC_isSome abis (addIface S i) k]
    have hadd : (alookup k (addIface S i).selC).isSome = true
        ↔ (alookup k S.selC).isSome = true ∨ ∃ f ∈ i.funcs, strLower f.selector = k := by
      unfold addIface
      exact cache_foldl_isSome mkDF i.funcs S.selC k
    rw [hadd]
    rw [show (some i :: abis).filterMap id = i :: abis.filterMap id from rfl]
    constructor
    · rintro ((h | hf) | ⟨j, hj, hjf⟩)
      · exact Or.inl h
      · exact Or.inr ⟨i, List.mem_cons_self _ _, hf⟩
      · exact Or.inr ⟨j, List.mem_cons_of_mem _ hj, hjf⟩
    · rintro (h | ⟨j, hj, hjf⟩)
      · exact Or.inl (Or.inl h)
      · rcases List.mem_cons.mp hj with rfl | hj
        · exact Or.inl (Or.inr hjf)
        · exact Or.inr ⟨j, hj, hjf⟩

theorem addAbis_errC_isSome : ∀ (abis : List (Option Iface)) (S : DecState) (k : String),
    (alookup k (addAbis S abis).errC).isSome = true
      ↔ (alookup k S.errC).isSome = true
        ∨ ∃ i ∈ abis.filterMap id, ∃ f ∈ i.errs, strLower f.selector = k
  | [], S, k => by simp [addAbis]
  | none :: abis, S, k => by
    simp only [addAbis, List.foldl_cons]
    rw [show (List.foldl (fun s a => match a with | some i => addIface s i | none => s) S abis)
          = addAbis S abis from rfl]
    rw [addAbis_errC_isSome abis S k]
    simp
  | some i :: abis, S, k => by
    simp only [addAbis, List.foldl_cons]
    rw [show (List.foldl (fun s a => match a with | some i => addIface s i | none => s)
            (addIface S i) abis) = addAbis (addIface S i) abis from rfl]
    rw [addAbis_errC_isSome abis (addIface S i) k]
    have hadd : (alookup k (addIface S i).errC).isSome = true
        ↔ (alookup k S.errC).isSome = true ∨ ∃ f ∈ i.errs, strLower f.selector = k := by
      unfold addIface
      exact cache_foldl_isSome mkDE i.errs S.errC k
    rw [hadd]
    rw [show (some i :: abis).filterMap id = i :: abis.filterMap id from rfl]
    constructor
    · rintro ((h | hf) | ⟨j, hj, hjf⟩)
      · exact Or.inl h
      · exact Or.inr ⟨i, List.mem_cons_self _ _, hf⟩
      · exact Or.inr ⟨j, List.mem_cons_of_mem _ hj, hjf⟩
    · rintro (h | ⟨j, hj, hjf⟩)
      · exact Or.inl (Or.inl h)
      · rcases List.mem_cons.mp hj with rfl | hj
        · exact Or.inl (Or.inr hjf)
        · exact Or.inr ⟨j, hj, hjf⟩

theorem mkDecoder_ifaces (abis : List (Option Iface)) :
    (mkDecoder abis).ifaces = abis.filterMap id := by
  unfold mkDecoder
  rw [addAbis_ifaces]
  rfl

theorem mkDecoder_selC_isSome (abis : List (Option Iface)) (k : String) :
    (alookup k (mkDecoder abis).selC).isSome = true
      ↔ ∃ i ∈ (mkDecoder abis).ifaces, ∃ f ∈ i.funcs, strLower f.selector = k := by
  unfold mkDecoder
  rw [addAbis_selC_isSome]
  rw [show (addAbis ⟨[], [], []⟩ abis).ifaces = (mkDecoder abis).ifaces from rfl]
  rw [mkDecoder_ifaces]
  simp [alookup]

theorem mkDecoder_errC_isSome (abis : List (Option Iface)) (k : String) :
    (alookup k (mkDecoder abis).errC).isSome = true
      ↔ ∃ i ∈ (mkDecoder abis).ifaces, ∃ f ∈ i.errs, strLower f.selector = k := by
  unfold mkDecoder
  rw [addAbis_errC_isSome]
  rw [show (addAbis ⟨[], [], []⟩ abis).ifaces = (mkDecoder abis).ifaces from rfl]
  rw [mkDecoder_ifaces]
  simp [alookup]

theorem firstFn_eq_none {is : List Iface} {k : String}
    (h : ∀ i ∈ is, getFn i k = none) : firstFn is k = none := by
  induction is with
  | nil => rfl
  | cons i is ih =>
    simp only [firstFn]
    rw [h i (List.mem_cons_self i is)]
    exact ih fun j hj => h j (List.mem_cons_of_mem i hj)

theorem getFn_isSome_of_frag {i : Iface} {f : Frag} {k : String}
    (hf : f ∈ i.funcs) (hk : strLower f.selector = k) : (getFn i k).isSome = true := by
  unfold getFn
  rw [List.find?_isSome]
  exact ⟨f, hf, by simp [hk]⟩

/-! ## Claim C8 -/

/-- Claim C8 (counterexample): for the calldata `0xABCD1234` with no loaded
ABIs, the selector of the calldata is `0xABCD1234` itself, the decoded name
is Unknown, but the sentinel signature is the lowercased selector, not the
original one. -/
theorem decode_unknown_lowercases_selector :
    strTake "0xABCD1234" 10 = "0xABCD1234"
    ∧ ((decodeCalldata emTrivial (mkDecoder []) "0xABCD1234").1).function.name = "Unknown"
    ∧ ((decodeCalldata emTrivial (mkDecoder []) "0xABCD1234").1).function.signature
        ≠ "0xABCD1234" := by decide

/-- Claim C8 (amended): decoding calldata (of at least selector length) whose
normalized 4-byte selector is absent from every loaded ABI returns the
sentinel with name Unknown and signature equal to the normalized (lowercased,
0x-prefixed) selector, leaving the decoder state untouched; the operation is
total, so it never fails. The signature equals the original selector exactly
when the original is already lowercase with the 0x prefix. -/
theorem decode_unknown_sentinel (em : EthersModel) (abis : List (Option Iface))
    (cd : String) (hlen : 10 ≤ cd.length)
    (habs : ∀ i ∈ (mkDecoder abis).ifaces,
      getFn i (normalizeSelector (strTake cd 10)) = none) :
    ((decodeCalldata em (mkDecoder abis) cd).1).function
      = ⟨normalizeSelector (strTake cd 10), "Unknown", normalizeSelector (strTake cd 10)⟩
    ∧ (decodeCalldata em (mkDecoder abis) cd).2 = mkDecoder abis := by
  have hne : ¬(cd = "") := by
    intro h
    rw [h] at hlen
    simp [String.length] at hlen
  have hne2 : ¬(cd = "0x") := by
    intro h
    rw [h] at hlen
    simp [String.length] at hlen
  have hcond : (cd == "" || cd == "0x" || decide (cd.length < 10)) = false := by
    simp only [Bool.or_eq_false_iff, beq_eq_false_iff_ne, ne_eq, decide_eq_false_iff_not,
      Nat.not_lt]
    exact ⟨⟨hne, hne2⟩, hlen⟩
  have hmiss : alookup (normalizeSelector (strTake cd 10)) (mkDecoder abis).selC = none := by
    cases hl : alookup (normalizeSelector (strTake cd 10)) (mkDecoder abis).selC with
    | none => rfl
    | some v =>
      exfalso
      have : (alookup (normalizeSelector (strTake cd 10)) (mkDecoder abis).selC).isSome
          = true := by simp [hl]
      rcases (mkDecoder_selC_isSome abis _).mp this with ⟨i, hi, f, hf, hk⟩
      have := getFn_isSome_of_frag hf hk
      rw [habs i hi] at this
      simp at this
  have hfirst : firstFn (mkDecoder abis).ifaces (normalizeSelector (strTake cd 10)) = none :=
    firstFn_eq_none habs
  have hdec : decode (mkDecoder abis) (strTake cd 10)
      = (⟨normalizeSelector (strTake cd 10), "Unknown", normalizeSelector (strTake cd 10)⟩,
         mkDecoder abis) := by
    simp only [decode]
    rw [hmiss, hfirst]
  unfold decodeCalldata
  rw [hcond]
  simp only [Bool.false_eq_true, if_false, hdec]
  cases hfp : fnParams em (mkDecoder abis).ifaces (strTake cd 10) cd with
  | none => exact ⟨rfl, rfl⟩
  | some p => exact ⟨rfl, rfl⟩

/-- Witness for `decode_unknown_sentinel` with no ABIs and lowercase
calldata `0xdeadbeef`. -/
theorem decode_unknown_sentinel_witness :
    (10 ≤ ("0xdeadbeef" : String).length)
    ∧ ((decodeCalldata emTrivial (mkDecoder []) "0xdeadbeef").1).function
        = ⟨"0xdeadbeef", "Unknown", "0xdeadbeef"⟩ := by
  have h := decode_unknown_sentinel emTrivial [] "0xdeadbeef" (by decide)
    (fun i hi => absurd hi (List.not_mem_nil i))
  exact ⟨by decide, h.1.trans (by decide)⟩


/-! ## Claim C7 -/

theorem parseFrameOutput_exclusive (em : EthersModel) (S : DecState) (b : CallInfo) :
    ¬(((parseFrameOutput em S b).1.2.1).isSome = true
      ∧ ((parseFrameOutput em S b).1.1).isSome = true) := by
  unfold parseFrameOutput
  rcases b.output with _ | o
  · simp
  · dsimp only
    by_cases h1 : (!(o == "") && !(o == "0x") && decide (10 ≤ o.length)) = true
    · rw [if_pos h1]
      generalize decodeError em S o = er
      obtain ⟨e1, S2⟩ := er
      dsimp only
      by_cases h2 : e1.name = "Unknown"
      · rw [if_pos h2]
        by_cases h3 : (!truthyS b.error && !truthyS b.revertReason) = true
        · rw [if_pos h3]
          cases hdo : decodeOutput em S2 b.input o with
          | none => simp
          | some od =>
            dsimp only
            by_cases h4 : 0 < od.values.length
            · rw [if_pos h4]
              simp
            · rw [if_neg h4]
              simp
        · rw [if_neg h3]
          simp
      · rw [if_neg h2]
        simp
    · rw [if_neg h1]
      simp

mutual
theorem parse_exclusive_aux (em : EthersModel) : ∀ (r : CallFrame) (d : Nat) (S : DecState)
    (f : ParsedCallFrame), f ∈ allFrames (parseCallFrame em r d S).1 →
    ¬(f.info.decodedOutput.isSome = true ∧ f.info.decodedError.isSome = true)
  | .mk b kids, d, S, f, hf => by
    simp only [parseCallFrame, allFrames, List.mem_cons] at hf
    rcases hf with rfl | hf
    · simp only [ParsedCallFrame.info]
      exact parseFrameOutput_exclusive em (decodeCalldata em S b.input).2 b
    · exact parse_exclusive_list em kids (d + 1)
        (parseFrameOutput em (decodeCalldata em S b.input).2 b).2 f hf
theorem parse_exclusive_list (em : EthersModel) : ∀ (rs : CallFrames) (d : Nat) (S : DecState)
    (f : ParsedCallFrame), f ∈ allFramesL (parseCallFrames em rs d S).1 →
    ¬(f.info.decodedOutput.isSome = true ∧ f.info.decodedError.isSome = true)
  | .nil, _, _, f, hf => by simp [parseCallFrames, allFramesL] at hf
  | .cons r rs, d, S, f, hf => by
    simp only [parseCallFrames, allFramesL, List.mem_append] at hf
    rcases hf with hf | hf
    · exact parse_exclusive_aux em r d S f hf
    · exact parse_exclusive_list em rs d (parseCallFrame em r d S).2 f hf
end

/-- Claim C7: in every frame of a parsed tree, `decodedOutput` and
`decodedError` are never both present: a recognized custom error suppresses
output decoding and vice versa. -/
theorem decodedOutput_decodedError_exclusive (em : EthersModel) (r : CallFrame)
    (d : Nat) (S : DecState) (f : ParsedCallFrame)
    (hf : f ∈ allFrames (parseCallFrame em r d S).1) :
    ¬(f.info.decodedOutput.isSome = true ∧ f.info.decodedError.isSome = true) :=
  parse_exclusive_aux em r d S f hf

/-- Witness for `decodedOutput_decodedError_exclusive` at the root of a
concrete parse. -/
theorem decodedOutput_decodedError_exclusive_witness :
    ¬((parseCallFrame emTrivial rawSimple 0 (mkDecoder [])).1.info.decodedOutput.isSome = true
      ∧ (parseCallFrame emTrivial rawSimple 0 (mkDecoder [])).1.info.decodedError.isSome = true) :=
  decodedOutput_decodedError_exclusive emTrivial rawSimple 0 (mkDecoder []) _
    (List.mem_cons_self _ _)


/-! ## Extension and invariant basics -/

theorem Ext.refl (S : DecState) : Ext S S :=
  ⟨rfl, fun _ _ h => h, fun _ _ h => h⟩

theorem Ext.trans {S T U : DecState} (h1 : Ext S T) (h2 : Ext T U) : Ext S U :=
  ⟨h1.1.trans h2.1, fun k v h => h2.2.1 k v (h1.2.1 k v h),
    fun k v h => h2.2.2 k v (h1.2.2 k v h)⟩

theorem ext_of_errC_aset {S : DecState} {k : String} {d : DecodedError}
    (hl : alookup k S.errC = none) :
    Ext S { S with errC := aset k d S.errC } :=
  ⟨rfl, fun _ _ h => h, fun k2 v h => by
    have hne : k2 ≠ k := by
      intro he
      rw [he, hl] at h
      exact absurd h (by simp)
    simpa [alookup_aset_ne d hne S.errC] using h⟩

theorem ext_of_selC_aset {S : DecState} {k : String} {d : DecodedFunction}
    (hl : alookup k S.selC = none) :
    Ext S { S with selC := aset k d S.selC } :=
  ⟨rfl, fun k2 v h => by
    have hne : k2 ≠ k := by
      intro he
      rw [he, hl] at h
      exact absurd h (by simp)
    simpa [alookup_aset_ne d hne S.selC] using h, fun _ _ h => h⟩

/-! ## Reduction lemmas for `decode` -/

theorem decode_of_hit {S : DecState} {sel : String} {v : DecodedFunction}
    (hl : alookup (normalizeSelector sel) S.selC = some v) :
    decode S sel = (v, S) := by
  simp only [decode]
  rw [hl]

theorem decode_of_miss_found {S : DecState} {sel : String} {f : Frag}
    (hl : alookup (normalizeSelector sel) S.selC = none)
    (hf : firstFn S.ifaces (normalizeSelector sel) = some f) :
    decode S sel
      = (⟨f.signature, f.name, normalizeSelector sel⟩,
         { S with selC := (aset (normalizeSelector sel)
            ⟨f.signature, f.name, normalizeSelector sel⟩ S.selC) }) := by
  simp only [decode]
  rw [hl, hf]

theorem decode_of_miss_none {S : DecState} {sel : String}
    (hl : alookup (normalizeSelector sel) S.selC = none)
    (hf : firstFn S.ifaces (normalizeSelector sel) = none) :
    decode S sel
      = (⟨normalizeSelector sel, "Unknown", normalizeSelector sel⟩, S) := by
  simp only [decode]
  rw [hl, hf]

theorem decode_mono (S : DecState) (sel : String) : Ext S (decode S sel).2 := by
  cases hl : alookup (normalizeSelector sel) S.selC with
  | some v =>
    rw [decode_of_hit hl]
    exact Ext.refl S
  | none =>
    cases hf : firstFn S.ifaces (normalizeSelector sel) with
    | some f =>
      rw [decode_of_miss_found hl hf]
      exact ext_of_selC_aset hl
    | none =>
      rw [decode_of_miss_none hl hf]
      exact Ext.refl S

theorem decode_state_id {em : EthersModel} {S : DecState} (h : GoodState em S)
    (sel : String) : (decode S sel).2 = S := by
  cases hl : alookup (normalizeSelector sel) S.selC with
  | some v => rw [decode_of_hit hl]
  | none =>
    rw [decode_of_miss_none hl (firstFn_eq_none (h.2.1 _ hl))]

theorem decode_replay {em : EthersModel} {S T : DecState} (hS : GoodState em S)
    (hT : GoodState em T) (hext : Ext S T) (sel : String) :
    (decode T sel).1 = (decode S sel).1 := by
  cases hl : alookup (normalizeSelector sel) S.selC with
  | some v =>
    rw [decode_of_hit hl, decode_of_hit (hext.2.1 _ _ hl)]
  | none =>
    cases hlT : alookup (normalizeSelector sel) T.selC with
    | some w =>
      exfalso
      rcases hT.1 _ _ hlT with ⟨i, hi, hsome⟩
      rw [← hext.1] at hi
      rw [hS.2.1 _ hl i hi] at hsome
      exact absurd hsome (by simp)
    | none =>
      rw [decode_of_miss_none hl (firstFn_eq_none (hS.2.1 _ hl)),
        decode_of_miss_none hlT (firstFn_eq_none (hT.2.1 _ hlT))]


/-! ## `decode` invariant preservation -/

theorem firstFn_some_cases : ∀ {is : List Iface} {k : String} {f : Frag},
    firstFn is k = some f → ∃ i ∈ is, getFn i k = some f
  | [], _, _, h => by simp [firstFn] at h
  | i :: is, k, f, h => by
    simp only [firstFn] at h
    cases hg : getFn i k with
    | some g =>
      rw [hg] at h
      obtain rfl := Option.some_injective _ h
      exact ⟨i, List.mem_cons_self i is, hg⟩
    | none =>
      rw [hg] at h
      rcases firstFn_some_cases h with ⟨j, hj, hjf⟩
      exact ⟨j, List.mem_cons_of_mem i hj, hjf⟩

theorem good_selC_aset {em : EthersModel} {S : DecState} (h : GoodState em S)
    {k : String} {d : DecodedFunction}
    (hdef : ∃ i ∈ S.ifaces, (getFn i k).isSome = true) :
    GoodState em { S with selC := aset k d S.selC } := by
  refine ⟨?_, ?_, h.2.2.1, h.2.2.2⟩
  · intro k2 v hv
    by_cases hk : k2 = k
    · subst hk
      exact hdef
    · rw [alookup_aset_ne d hk S.selC] at hv
      exact h.1 k2 v hv
  · intro k2 hv
    by_cases hk : k2 = k
    · rw [hk, alookup_aset_self k d S.selC] at hv
      exact absurd hv (by simp)
    · rw [alookup_aset_ne d hk S.selC] at hv
      exact h.2.1 k2 hv

theorem good_errC_aset {em : EthersModel} {S : DecState} (h : GoodState em S)
    {k : String} {d : DecodedError}
    (hdef : (∃ i ∈ S.ifaces, (findErrDef i k).isSome = true)
      ∨ ((em.builtinError k).isSome = true ∧ S.ifaces ≠ [])) :
    GoodState em { S with errC := aset k d S.errC } := by
  refine ⟨h.1, h.2.1, ?_, ?_⟩
  · intro k2 v hv
    by_cases hk : k2 = k
    · subst hk
      exact hdef
    · rw [alookup_aset_ne d hk S.errC] at hv
      exact h.2.2.1 k2 v hv
  · intro k2 hv
    by_cases hk : k2 = k
    · rw [hk, alookup_aset_self k d S.errC] at hv
      exact absurd hv (by simp)
    · rw [alookup_aset_ne d hk S.errC] at hv
      exact h.2.2.2 k2 hv

theorem decode_good {em : EthersModel} {S : DecState} (h : GoodState em S)
    (sel : String) : GoodState em (decode S sel).2 := by
  cases hl : alookup (normalizeSelector sel) S.selC with
  | some v =>
    rw [decode_of_hit hl]
    exact h
  | none =>
    cases hf : firstFn S.ifaces (normalizeSelector sel) with
    | some f =>
      rw [decode_of_miss_found hl hf]
      rcases firstFn_some_cases hf with ⟨i, hi, hif⟩
      exact good_selC_aset h ⟨i, hi, by simp [hif]⟩
    | none =>
      rw [decode_of_miss_none hl hf]
      exact h

/-! ## `decodeCalldata` state behaviour -/

theorem decodeCalldata_long {em : EthersModel} {S : DecState} {cd : String}
    (hc : (cd == "" || cd == "0x" || decide (cd.length < 10)) = false) :
    decodeCalldata em S cd
      = (match fnParams em (decode S (strTake cd 10)).2.ifaces (strTake cd 10) cd with
         | some (vals, g) =>
           (⟨(decode S (strTake cd 10)).1, some vals, some (g.inputs.map paramName),
             some g.inputs⟩, (decode S (strTake cd 10)).2)
         | none =>
           (⟨(decode S (strTake cd 10)).1, none, none, none⟩,
            (decode S (strTake cd 10)).2)) := by
  simp only [decodeCalldata]
  rw [hc]
  simp only [Bool.false_eq_true, if_false]

theorem decodeCalldata_mono (em : EthersModel) (S : DecState) (cd : String) :
    Ext S (decodeCalldata em S cd).2 := by
  by_cases hc : (cd == "" || cd == "0x" || decide (cd.length < 10)) = true
  · unfold decodeCalldata
    rw [if_pos hc]
    exact Ext.refl S
  · rw [decodeCalldata_long (by revert hc; cases (cd == "" || cd == "0x" || decide (cd.length < 10)) <;> simp)]
    cases hfp : fnParams em (decode S (strTake cd 10)).2.ifaces (strTake cd 10) cd with
    | some p =>
      obtain ⟨vals, g⟩ := p
      exact decode_mono S (strTake cd 10)
    | none => exact decode_mono S (strTake cd 10)

theorem decodeCalldata_good {em : EthersModel} {S : DecState} (h : GoodState em S)
    (cd : String) : GoodState em (decodeCalldata em S cd).2 := by
  by_cases hc : (cd == "" || cd == "0x" || decide (cd.length < 10)) = true
  · unfold decodeCalldata
    rw [if_pos hc]
    exact h
  · rw [decodeCalldata_long (by revert hc; cases (cd == "" || cd == "0x" || decide (cd.length < 10)) <;> simp)]
    cases hfp : fnParams em (decode S (strTake cd 10)).2.ifaces (strTake cd 10) cd with
    | some p =>
      obtain ⟨vals, g⟩ := p
      exact decode_good h (strTake cd 10)
    | none => exact decode_good h (strTake cd 10)

theorem decodeCalldata_state_id {em : EthersModel} {S : DecState} (h : GoodState em S)
    (cd : String) : (decodeCalldata em S cd).2 = S := by
  by_cases hc : (cd == "" || cd == "0x" || decide (cd.length < 10)) = true
  · unfold decodeCalldata
    rw [if_pos hc]
  · rw [decodeCalldata_long (by revert hc; cases (cd == "" || cd == "0x" || decide (cd.length < 10)) <;> simp)]
    cases hfp : fnParams em (decode S (strTake cd 10)).2.ifaces (strTake cd 10) cd with
    | some p =>
      obtain ⟨vals, g⟩ := p
      exact decode_state_id h (strTake cd 10)
    | none => exact decode_state_id h (strTake cd 10)

theorem decodeCalldata_replay {em : EthersModel} {S T : DecState} (hS : GoodState em S)
    (hT : GoodState em T) (hext : Ext S T) (cd : String) :
    (decodeCalldata em T cd).1 = (decodeCalldata em S cd).1 := by
  by_cases hc : (cd == "" || cd == "0x" || decide (cd.length < 10)) = true
  · unfold decodeCalldata
    rw [if_pos hc, if_pos hc]
  · have hc2 : (cd == "" || cd == "0x" || decide (cd.length < 10)) = false := by
      revert hc
      cases (cd == "" || cd == "0x" || decide (cd.length < 10)) <;> simp
    rw [decodeCalldata_long (S := S) hc2, decodeCalldata_long (S := T) hc2]
    rw [decode_state_id hS, decode_state_id hT]
    rw [← hext.1]
    rw [decode_replay hS hT hext]
    cases hfp : fnParams em S.ifaces (strTake cd 10) cd with
    | some p =>
      obtain ⟨vals, g⟩ := p
      rfl
    | none => rfl


/-! ## `decodeError` reduction lemmas -/

theorem decodeError_short {em : EthersModel} {S : DecState} {ed : String}
    (hc : (ed == "" || ed == "0x" || decide (ed.length < 10)) = true) :
    decodeError em S ed = (⟨"Unknown error", "Unknown", "0x", none⟩, S) := by
  unfold decodeError
  rw [if_pos hc]

theorem decodeError_hit {em : EthersModel} {S : DecState} {ed : String}
    {cached : DecodedError}
    (hc : (ed == "" || ed == "0x" || decide (ed.length < 10)) = false)
    (hl : alookup (strLower (strTake ed 10)) S.errC = some cached) :
    decodeError em S ed
      = ((match errFirstSuccess em S.ifaces (strLower (strTake ed 10)) ed with
          | some (g, args) => ⟨g.signature, g.name, g.selector, some args⟩
          | none => cached), S) := by
  simp only [decodeError]
  rw [hc]
  simp only [Bool.false_eq_true, if_false]
  rw [hl]

theorem decodeError_miss_found_ok {em : EthersModel} {S : DecState} {ed : String}
    {g : Frag} {args : List JsVal}
    (hc : (ed == "" || ed == "0x" || decide (ed.length < 10)) = false)
    (hl : alookup (strLower (strTake ed 10)) S.errC = none)
    (hff : errFirstFrag em S.ifaces (strLower (strTake ed 10)) = some g)
    (hda : em.decodeErrorArgs g ed = some args) :
    decodeError em S ed
      = (⟨g.signature, g.name, g.selector, some args⟩,
         { S with errC := (aset (strLower (strTake ed 10))
            ⟨g.signature, g.name, g.selector, some args⟩ S.errC) }) := by
  simp only [decodeError]
  rw [hc]
  simp only [Bool.false_eq_true, if_false]
  rw [hl, hff]
  dsimp only
  rw [hda]

theorem decodeError_miss_found_fail {em : EthersModel} {S : DecState} {ed : String}
    {g : Frag}
    (hc : (ed == "" || ed == "0x" || decide (ed.length < 10)) = false)
    (hl : alookup (strLower (strTake ed 10)) S.errC = none)
    (hff : errFirstFrag em S.ifaces (strLower (strTake ed 10)) = some g)
    (hda : em.decodeErrorArgs g ed = none) :
    decodeError em S ed
      = (⟨g.signature, g.name, g.selector, none⟩,
         { S with errC := (aset (strLower (strTake ed 10))
            ⟨g.signature, g.name, g.selector, none⟩ S.errC) }) := by
  simp only [decodeError]
  rw [hc]
  simp only [Bool.false_eq_true, if_false]
  rw [hl, hff]
  dsimp only
  rw [hda]

theorem decodeError_miss_none {em : EthersModel} {S : DecState} {ed : String}
    (hc : (ed == "" || ed == "0x" || decide (ed.length < 10)) = false)
    (hl : alookup (strLower (strTake ed 10)) S.errC = none)
    (hff : errFirstFrag em S.ifaces (strLower (strTake ed 10)) = none) :
    decodeError em S ed
      = (⟨strLower (strTake ed 10), "Unknown", strLower (strTake ed 10), none⟩, S) := by
  simp only [decodeError]
  rw [hc]
  simp only [Bool.false_eq_true, if_false]
  rw [hl, hff]

/-! ## Interface-loop lemmas for `decodeError` -/

theorem getErr_of_no_def {em : EthersModel} {i : Iface} {k : String}
    (h : findErrDef i k = none) : getErr em i k = em.builtinError k := by
  unfold getErr
  cases hb : em.builtinError k with
  | some f => rfl
  | none => exact h

theorem errFirstFrag_all_none {em : EthersModel} : ∀ {is : List Iface} {k : String},
    errFirstFrag em is k = none → ∀ i ∈ is, getErr em i k = none
  | [], _, _, i, hi => absurd hi (List.not_mem_nil i)
  | j :: is, k, h, i, hi => by
    simp only [errFirstFrag] at h
    cases hg : getErr em j k with
    | some g => rw [hg] at h; exact absurd h (by simp)
    | none =>
      rw [hg] at h
      rcases List.mem_cons.mp hi with rfl | hi
      · exact hg
      · exact errFirstFrag_all_none h i hi

theorem errFirstFrag_none_of_all {em : EthersModel} : ∀ {is : List Iface} {k : String},
    (∀ i ∈ is, getErr em i k = none) → errFirstFrag em is k = none
  | [], _, _ => rfl
  | j :: is, k, h => by
    simp only [errFirstFrag]
    rw [h j (List.mem_cons_self j is)]
    exact errFirstFrag_none_of_all fun i hi => h i (List.mem_cons_of_mem j hi)

theorem errFirstFrag_some_cases {em : EthersModel} : ∀ {is : List Iface} {k : String}
    {g : Frag}, errFirstFrag em is k = some g → ∃ i ∈ is, getErr em i k = some g
  | [], _, _, h => by simp [errFirstFrag] at h
  | j :: is, k, g, h => by
    simp only [errFirstFrag] at h
    cases hg : getErr em j k with
    | some f =>
      rw [hg] at h
      obtain rfl := Option.some_injective _ h
      exact ⟨j, List.mem_cons_self j is, hg⟩
    | none =>
      rw [hg] at h
      rcases errFirstFrag_some_cases h with ⟨i, hi, hif⟩
      exact ⟨i, List.mem_cons_of_mem j hi, hif⟩

theorem errFirstFrag_uniform_some {em : EthersModel} {is : List Iface} {k : String}
    {g : Frag} (hne : is ≠ []) (hall : ∀ i ∈ is, getErr em i k = some g) :
    errFirstFrag em is k = some g := by
  cases is with
  | nil => exact absurd rfl hne
  | cons j is =>
    simp only [errFirstFrag]
    rw [hall j (List.mem_cons_self j is)]

theorem errFirstSuccess_all_fail {em : EthersModel} {k ed : String} {g : Frag}
    (hda : em.decodeErrorArgs g ed = none) : ∀ {is : List Iface},
    (∀ i ∈ is, getErr em i k = some g) → errFirstSuccess em is k ed = none
  | [], _ => rfl
  | j :: is, hall => by
    simp only [errFirstSuccess]
    rw [hall j (List.mem_cons_self j is)]
    dsimp only
    rw [hda]
    exact errFirstSuccess_all_fail hda fun i hi => hall i (List.mem_cons_of_mem j hi)

theorem errFirstSuccess_uniform_ok {em : EthersModel} {is : List Iface} {k ed : String}
    {g : Frag} {args : List JsVal} (hne : is ≠ [])
    (hall : ∀ i ∈ is, getErr em i k = some g)
    (hda : em.decodeErrorArgs g ed = some args) :
    errFirstSuccess em is k ed = some (g, args) := by
  cases is with
  | nil => exact absurd rfl hne
  | cons j is =>
    simp only [errFirstSuccess]
    rw [hall j (List.mem_cons_self j is)]
    dsimp only
    rw [hda]

/-! ## `decodeError` state behaviour -/

theorem decodeError_mono (em : EthersModel) (S : DecState) (ed : String) :
    Ext S (decodeError em S ed).2 := by
  by_cases hc : (ed == "" || ed == "0x" || decide (ed.length < 10)) = true
  · rw [decodeError_short hc]
    exact Ext.refl S
  · have hc2 : (ed == "" || ed == "0x" || decide (ed.length < 10)) = false := by
      revert hc
      cases (ed == "" || ed == "0x" || decide (ed.length < 10)) <;> simp
    cases hl : alookup (strLower (strTake ed 10)) S.errC with
    | some cached =>
      rw [decodeError_hit hc2 hl]
      exact Ext.refl S
    | none =>
      cases hff : errFirstFrag em S.ifaces (strLower (strTake ed 10)) with
      | some g =>
        cases hda : em.decodeErrorArgs g ed with
        | some args =>
          rw [decodeError_miss_found_ok hc2 hl hff hda]
          exact ext_of_errC_aset hl
        | none =>
          rw [decodeError_miss_found_fail hc2 hl hff hda]
          exact ext_of_errC_aset hl
      | none =>
        rw [decodeError_miss_none hc2 hl hff]
        exact Ext.refl S

theorem decodeError_good {em : EthersModel} {S : DecState} (h : GoodState em S)
    (ed : String) : GoodState em (decodeError em S ed).2 := by
  by_cases hc : (ed == "" || ed == "0x" || decide (ed.length < 10)) = true
  · rw [decodeError_short hc]
    exact h
  · have hc2 : (ed == "" || ed == "0x" || decide (ed.length < 10)) = false := by
      revert hc
      cases (ed == "" || ed == "0x" || decide (ed.length < 10)) <;> simp
    cases hl : alookup (strLower (strTake ed 10)) S.errC with
    | some cached =>
      rw [decodeError_hit hc2 hl]
      exact h
    | none =>
      have hdef : ∀ g, errFirstFrag em S.ifaces (strLower (strTake ed 10)) = some g →
          (∃ i ∈ S.ifaces, (findErrDef i (strLower (strTake ed 10))).isSome = true)
          ∨ ((em.builtinError (strLower (strTake ed 10))).isSome = true ∧ S.ifaces ≠ []) := by
        intro g hff
        rcases errFirstFrag_some_cases hff with ⟨i, hi, hig⟩
        unfold getErr at hig
        cases hb : em.builtinError (strLower (strTake ed 10)) with
        | some f =>
          exact Or.inr ⟨by simp [hb], List.ne_nil_of_mem hi⟩
        | none =>
          rw [hb] at hig
          dsimp only at hig
          exact Or.inl ⟨i, hi, by simp [hig]⟩
      cases hff : errFirstFrag em S.ifaces (strLower (strTake ed 10)) with
      | some g =>
        cases hda : em.decodeErrorArgs g ed with
        | some args =>
          rw [decodeError_miss_found_ok hc2 hl hff hda]
          exact good_errC_aset h (hdef g hff)
        | none =>
          rw [decodeError_miss_found_fail hc2 hl hff hda]
          exact good_errC_aset h (hdef g hff)
      | none =>
        rw [decodeError_miss_none hc2 hl hff]
        exact h

theorem decodeError_replay {em : EthersModel} {S T : DecState} {ed : String}
    (hS : GoodState em S) (hT : GoodState em T)
    (hext : Ext (decodeError em S ed).2 T) :
    decodeError em T ed = ((decodeError em S ed).1, T) := by
  by_cases hc : (ed == "" || ed == "0x" || decide (ed.length < 10)) = true
  · rw [decodeError_short hc, decodeError_short hc]
  · have hc2 : (ed == "" || ed == "0x" || decide (ed.length < 10)) = false := by
      revert hc
      cases (ed == "" || ed == "0x" || decide (ed.length < 10)) <;> simp
    cases hl : alookup (strLower (strTake ed 10)) S.errC with
    | some cached =>
      have hSrun : decodeError em S ed = _ := decodeError_hit hc2 hl
      have hext2 : Ext S T := by
        rw [hSrun] at hext
        exact hext
      have hTl : alookup (strLower (strTake ed 10)) T.errC = some cached :=
        hext2.2.2 _ _ hl
      rw [decodeError_hit hc2 hTl, hSrun]
      rw [← hext2.1]
    | none =>
      have h4 : ∀ i ∈ S.ifaces, findErrDef i (strLower (strTake ed 10)) = none :=
        hS.2.2.2 _ hl
      have huni : ∀ i ∈ S.ifaces,
          getErr em i (strLower (strTake ed 10)) = em.builtinError (strLower (strTake ed 10)) :=
        fun i hi => getErr_of_no_def (h4 i hi)
      cases hff : errFirstFrag em S.ifaces (strLower (strTake ed 10)) with
      | some g =>
        rcases errFirstFrag_some_cases hff with ⟨i0, hi0, hg0⟩
        have hbi : em.builtinError (strLower (strTake ed 10)) = some g := by
          rw [huni i0 hi0] at hg0
          exact hg0
        have hne : S.ifaces ≠ [] := List.ne_nil_of_mem hi0
        have halls : ∀ i ∈ S.ifaces, getErr em i (strLower (strTake ed 10)) = some g :=
          fun i hi => (huni i hi).trans hbi
        have hifeq : S.ifaces = T.ifaces := by
          have := (decodeError_mono em S ed).trans hext
          exact this.1
        have hallsT : ∀ i ∈ T.ifaces, getErr em i (strLower (strTake ed 10)) = some g := by
          rw [← hifeq]
          exact halls
        have hneT : T.ifaces ≠ [] := by
          rw [← hifeq]
          exact hne
        cases hda : em.decodeErrorArgs g ed with
        | some args =>
          have hSrun : decodeError em S ed = _ := decodeError_miss_found_ok hc2 hl hff hda
          have hext2 : Ext { S with errC := (aset (strLower (strTake ed 10))
              ⟨g.signature, g.name, g.selector, some args⟩ S.errC) } T := by
            rw [hSrun] at hext
            exact hext
          have hTl : alookup (strLower (strTake ed 10)) T.errC
              = some ⟨g.signature, g.name, g.selector, some args⟩ := by
            apply hext2.2.2
            exact alookup_aset_self _ _ _
          rw [decodeError_hit hc2 hTl, hSrun]
          rw [errFirstSuccess_uniform_ok hneT hallsT hda]
        | none =>
          have hSrun : decodeError em S ed = _ := decodeError_miss_found_fail hc2 hl hff hda
          have hext2 : Ext { S with errC := (aset (strLower (strTake ed 10))
              ⟨g.signature, g.name, g.selector, none⟩ S.errC) } T := by
            rw [hSrun] at hext
            exact hext
          have hTl : alookup (strLower (strTake ed 10)) T.errC
              = some ⟨g.signature, g.name, g.selector, none⟩ := by
            apply hext2.2.2
            exact alookup_aset_self _ _ _
          rw [decodeError_hit hc2 hTl, hSrun]
          rw [errFirstSuccess_all_fail hda hallsT]
      | none =>
        have hSrun : decodeError em S ed = _ := decodeError_miss_none hc2 hl hff
        have hext2 : Ext S T := by
          rw [hSrun] at hext
          exact hext
        have hallnone := errFirstFrag_all_none hff
        have hTl : alookup (strLower (strTake ed 10)) T.errC = none := by
          cases hlT : alookup (strLower (strTake ed 10)) T.errC with
          | none => rfl
          | some v =>
            exfalso
            rcases hT.2.2.1 _ _ hlT with ⟨i, hi, hsome⟩ | ⟨hbi, hneT⟩
            · rw [← hext2.1] at hi
              rw [h4 i hi] at hsome
              exact absurd hsome (by simp)
            · have hneS : S.ifaces ≠ [] := by
                rw [hext2.1]
                exact hneT
              rcases List.exists_mem_of_ne_nil S.ifaces hneS with ⟨i0, hi0⟩
              have := hallnone i0 hi0
              rw [huni i0 hi0] at this
              rw [this] at hbi
              exact absurd hbi (by simp)
        have hffT : errFirstFrag em T.ifaces (strLower (strTake ed 10)) = none := by
          apply errFirstFrag_none_of_all
          rw [← hext2.1]
          exact hallnone
        rw [decodeError_miss_none hc2 hTl hffT, hSrun]


/-! ## `parseFrameOutput` state behaviour -/

theorem decodeOutput_congr {em : EthersModel} {S T : DecState} (h : S.ifaces = T.ifaces)
    (cd od : String) : decodeOutput em S cd od = decodeOutput em T cd od := by
  unfold decodeOutput
  rw [h]

theorem parseFrameOutput_eq (em : EthersModel) (S : DecState) (b : CallInfo) :
    parseFrameOutput em S b
      = match b.output with
        | some o =>
          if (!(o == "") && !(o == "0x") && decide (10 ≤ o.length)) = true then
            (parseFrameOutputCore em (decodeError em S o) b o, (decodeError em S o).2)
          else ((none, none, none, none), S)
        | none => ((none, none, none, none), S) := by
  unfold parseFrameOutput parseFrameOutputCore
  rcases b.output with _ | o
  · rfl
  · dsimp only
    by_cases h1 : (!(o == "") && !(o == "0x") && decide (10 ≤ o.length)) = true
    · rw [if_pos h1, if_pos h1]
      generalize decodeError em S o = er
      obtain ⟨e1, S2⟩ := er
      dsimp only
      by_cases h2 : e1.name = "Unknown"
      · rw [if_pos h2, if_pos h2]
        by_cases h3 : (!truthyS b.error && !truthyS b.revertReason) = true
        · rw [if_pos h3, if_pos h3]
          cases hdo : decodeOutput em S2 b.input o with
          | none => rfl
          | some od =>
            dsimp only
            by_cases h4 : 0 < od.values.length
            · rw [if_pos h4, if_pos h4]
            · rw [if_neg h4, if_neg h4]
        · rw [if_neg h3, if_neg h3]
      · rw [if_neg h2, if_neg h2]
    · rw [if_neg h1, if_neg h1]

theorem parseFrameOutputCore_congr {em : EthersModel} {er er2 : DecodedError × DecState}
    (b : CallInfo) (o : String) (h1 : er.1 = er2.1) (h2 : er.2.ifaces = er2.2.ifaces) :
    parseFrameOutputCore em er b o = parseFrameOutputCore em er2 b o := by
  unfold parseFrameOutputCore
  rw [h1, decodeOutput_congr h2]

theorem parseFrameOutput_mono (em : EthersModel) (S : DecState) (b : CallInfo) :
    Ext S (parseFrameOutput em S b).2 := by
  rw [parseFrameOutput_eq]
  rcases b.output with _ | o
  · exact Ext.refl S
  · dsimp only
    by_cases h1 : (!(o == "") && !(o == "0x") && decide (10 ≤ o.length)) = true
    · rw [if_pos h1]
      exact decodeError_mono em S o
    · rw [if_neg h1]
      exact Ext.refl S

theorem parseFrameOutput_good {em : EthersModel} {S : DecState} (h : GoodState em S)
    (b : CallInfo) : GoodState em (parseFrameOutput em S b).2 := by
  rw [parseFrameOutput_eq]
  rcases b.output with _ | o
  · exact h
  · dsimp only
    by_cases h1 : (!(o == "") && !(o == "0x") && decide (10 ≤ o.length)) = true
    · rw [if_pos h1]
      exact decodeError_good h o
    · rw [if_neg h1]
      exact h

theorem parseFrameOutput_replay {em : EthersModel} {S T : DecState} {b : CallInfo}
    (hS : GoodState em S) (hT : GoodState em T)
    (hext : Ext (parseFrameOutput em S b).2 T) :
    parseFrameOutput em T b = ((parseFrameOutput em S b).1, T) := by
  rw [parseFrameOutput_eq (S := S)] at hext
  cases ho : b.output with
  | none =>
    rw [parseFrameOutput_eq (S := T), parseFrameOutput_eq (S := S), ho]
  | some o =>
    rw [ho] at hext
    dsimp only at hext
    rw [parseFrameOutput_eq (S := T), parseFrameOutput_eq (S := S), ho]
    dsimp only
    by_cases h1 : (!(o == "") && !(o == "0x") && decide (10 ≤ o.length)) = true
    · rw [if_pos h1] at hext ⊢
      have hx : Ext (decodeError em S o).2 T := by simpa using hext
      have hrep := decodeError_replay hS hT hx
      rw [hrep]
      have hcong : parseFrameOutputCore em ((decodeError em S o).1, T) b o
          = parseFrameOutputCore em (decodeError em S o) b o := by
        apply parseFrameOutputCore_congr
        · rfl
        · exact (hx.1).symm
      rw [hcong]
      rw [if_pos h1]
    · rw [if_neg h1] at hext ⊢
      rw [if_neg h1]


/-! ## Parsing: state monotonicity and invariant preservation -/

mutual
theorem parse_state_aux (em : EthersModel) : ∀ (r : CallFrame) (d : Nat) (S : DecState),
    Ext S (parseCallFrame em r d S).2
    ∧ (GoodState em S → GoodState em (parseCallFrame em r d S).2)
  | .mk b kids, d, S => by
    simp only [parseCallFrame]
    have h1 := decodeCalldata_mono em S b.input
    have h2 := parseFrameOutput_mono em (decodeCalldata em S b.input).2 b
    have h3 := parse_state_auxL em kids (d + 1)
      (parseFrameOutput em (decodeCalldata em S b.input).2 b).2
    refine ⟨(h1.trans h2).trans h3.1, ?_⟩
    intro hG
    exact h3.2 (parseFrameOutput_good (decodeCalldata_good hG b.input) b)
theorem parse_state_auxL (em : EthersModel) : ∀ (rs : CallFrames) (d : Nat) (S : DecState),
    Ext S (parseCallFrames em rs d S).2
    ∧ (GoodState em S → GoodState em (parseCallFrames em rs d S).2)
  | .nil, _, S => ⟨Ext.refl S, fun h => h⟩
  | .cons f fs, d, S => by
    simp only [parseCallFrames]
    have h1 := parse_state_aux em f d S
    have h2 := parse_state_auxL em fs d (parseCallFrame em f d S).2
    exact ⟨h1.1.trans h2.1, fun hG => h2.2 (h1.2 hG)⟩
end

/-! ## Parsing: the second run reproduces the first -/

mutual
theorem parse_replay_aux (em : EthersModel) : ∀ (r : CallFrame) (d : Nat) (S T : DecState),
    GoodState em S → GoodState em T → Ext (parseCallFrame em r d S).2 T →
    (parseCallFrame em r d T).1 = (parseCallFrame em r d S).1
  | .mk b kids, d, S, T, hS, hT, hext => by
    simp only [parseCallFrame] at hext ⊢
    have hdS : (decodeCalldata em S b.input).2 = S := decodeCalldata_state_id hS b.input
    have hdT : (decodeCalldata em T b.input).2 = T := decodeCalldata_state_id hT b.input
    rw [hdS] at hext
    rw [hdS, hdT]
    have hextEO : Ext (parseFrameOutput em S b).2 T :=
      ((parse_state_auxL em kids (d + 1) (parseFrameOutput em S b).2).1).trans hext
    have hextST : Ext S T := (parseFrameOutput_mono em S b).trans hextEO
    have hdc : (decodeCalldata em T b.input).1 = (decodeCalldata em S b.input).1 :=
      decodeCalldata_replay hS hT hextST b.input
    rw [hdc]
    have hpfo : parseFrameOutput em T b = ((parseFrameOutput em S b).1, T) :=
      parseFrameOutput_replay hS hT hextEO
    rw [hpfo]
    have hGeo : GoodState em (parseFrameOutput em S b).2 := parseFrameOutput_good hS b
    have hkids : (parseCallFrames em kids (d + 1) T).1
        = (parseCallFrames em kids (d + 1) (parseFrameOutput em S b).2).1 :=
      parse_replay_auxL em kids (d + 1) (parseFrameOutput em S b).2 T hGeo hT hext
    simp only [hkids]
theorem parse_replay_auxL (em : EthersModel) : ∀ (rs : CallFrames) (d : Nat) (S T : DecState),
    GoodState em S → GoodState em T → Ext (parseCallFrames em rs d S).2 T →
    (parseCallFrames em rs d T).1 = (parseCallFrames em rs d S).1
  | .nil, _, _, _, _, _, _ => rfl
  | .cons f fs, d, S, T, hS, hT, hext => by
    simp only [parseCallFrames] at hext ⊢
    have hext1 : Ext (parseCallFrame em f d S).2 T :=
      ((parse_state_auxL em fs d (parseCallFrame em f d S).2).1).trans hext
    have h1 : (parseCallFrame em f d T).1 = (parseCallFrame em f d S).1 :=
      parse_replay_aux em f d S T hS hT hext1
    have hGp : GoodState em (parseCallFrame em f d S).2 := (parse_state_aux em f d S).2 hS
    have hGT1 : GoodState em (parseCallFrame em f d T).2 := (parse_state_aux em f d T).2 hT
    have hextp : Ext (parseCallFrames em fs d (parseCallFrame em f d S).2).2
        (parseCallFrame em f d T).2 :=
      hext.trans ((parse_state_aux em f d T).1)
    have h2 : (parseCallFrames em fs d (parseCallFrame em f d T).2).1
        = (parseCallFrames em fs d (parseCallFrame em f d S).2).1 :=
      parse_replay_auxL em fs d (parseCallFrame em f d S).2 (parseCallFrame em f d T).2
        hGp hGT1 hextp
    rw [h1, h2]
end

/-! ## The constructed decoder satisfies the invariant -/

theorem findErrDef_isSome_of_frag {i : Iface} {f : Frag} {k : String}
    (hf : f ∈ i.errs) (hk : strLower f.selector = k) :
    (findErrDef i k).isSome = true := by
  unfold findErrDef
  rw [List.find?_isSome]
  exact ⟨f, hf, by simp [hk]⟩

theorem mkDecoder_good (em : EthersModel) (abis : List (Option Iface)) :
    GoodState em (mkDecoder abis) := by
  refine ⟨?_, ?_, ?_, ?_⟩
  · intro k v hv
    have hs : (alookup k (mkDecoder abis).selC).isSome = true := by simp [hv]
    rcases (mkDecoder_selC_isSome abis k).mp hs with ⟨i, hi, f, hf, hk⟩
    exact ⟨i, hi, getFn_isSome_of_frag hf hk⟩
  · intro k hv i hi
    cases hg : getFn i k with
    | none => rfl
    | some f =>
      exfalso
      have hmem : f ∈ i.funcs := List.mem_of_find?_eq_some hg
      have hpred := List.find?_some hg
      have hk : strLower f.selector = k := by simpa using hpred
      have hs : (alookup k (mkDecoder abis).selC).isSome = true :=
        (mkDecoder_selC_isSome abis k).mpr ⟨i, hi, f, hmem, hk⟩
      rw [hv] at hs
      exact absurd hs (by simp)
  · intro k v hv
    have hs : (alookup k (mkDecoder abis).errC).isSome = true := by simp [hv]
    rcases (mkDecoder_errC_isSome abis k).mp hs with ⟨i, hi, f, hf, hk⟩
    exact Or.inl ⟨i, hi, findErrDef_isSome_of_frag hf hk⟩
  · intro k hv i hi
    cases hg : findErrDef i k with
    | none => rfl
    | some f =>
      exfalso
      have hmem : f ∈ i.errs := List.mem_of_find?_eq_some hg
      have hpred := List.find?_some hg
      have hk : strLower f.selector = k := by simpa using hpred
      have hs : (alookup k (mkDecoder abis).errC).isSome = true :=
        (mkDecoder_errC_isSome abis k).mpr ⟨i, hi, f, hmem, hk⟩
      rw [hv] at hs
      exact absurd hs (by simp)

/-! ## Claim C5 -/

/-- Claim C5: parsing a raw call-frame tree a second time, with the decoder
state left behind by the first parse over the same loaded ABI set, produces a
structurally identical parsed tree: the cache entries written during the
first parse never change the decoded result, so the tree is a pure function
of the raw trace and the loaded ABIs. -/
theorem parseCallFrame_idempotent (em : EthersModel) (abis : List (Option Iface))
    (r : CallFrame) (d : Nat) :
    (parseCallFrame em r d (parseCallFrame em r d (mkDecoder abis)).2).1
      = (parseCallFrame em r d (mkDecoder abis)).1 :=
  parse_replay_aux em r d (mkDecoder abis) (parseCallFrame em r d (mkDecoder abis)).2
    (mkDecoder_good em abis)
    ((parse_state_aux em r d (mkDecoder abis)).2 (mkDecoder_good em abis))
    (Ext.refl _)

end Flashpoint
